import Mathlib

/-!
# breakcheck: the driver's package selection and its git plumbing

A shallow embedding of `src/main.go` and `src/git.go`.

Go strings are modelled as lists of characters (`Str`).  The source only ever
searches for, splits on and compares against ASCII text, and UTF-8 is
self-synchronising, so prefixes, substrings and splits computed on characters
coincide with the ones Go computes on bytes.
-/

set_option autoImplicit false

namespace Breakcheck

/-- Go `string`. -/
abbrev Str := List Char

/-! ## The parts of the Go standard library the source calls -/

/-- Position of the first occurrence of `sub` in `s`, if any: the search behind
`strings.Index`. -/
def indexOf? (sub : Str) : Str → Option Nat
  | [] => if sub.isPrefixOf [] then some 0 else none
  | c :: cs =>
    if sub.isPrefixOf (c :: cs) then some 0
    else (indexOf? sub cs).map (· + 1)

/-- Go `strings.Index(s, substr)`: index of the first occurrence, `-1` if there is none. -/
def stringsIndex (s sub : Str) : Int :=
  match indexOf? sub s with
  | some i => (i : Int)
  | none => -1

/-- Go `strings.IndexByte(s, c)`. -/
def stringsIndexByte (s : Str) (c : Char) : Int :=
  stringsIndex s [c]

/-- Go `strings.HasSuffix(s, suffix)`. -/
def stringsHasSuffix (s suffix : Str) : Bool :=
  suffix.isSuffixOf s

/-- Go `strings.Contains(s, substr)`. -/
def stringsContains (s sub : Str) : Bool :=
  decide (stringsIndex s sub ≥ 0)

/-- Go `strings.Split(s, sep)` for a one-byte separator: the pieces between the
separators, `n + 1` pieces for `n` separators. -/
def stringsSplit (sep : Char) : Str → List Str
  | [] => [[]]
  | c :: cs =>
    if c = sep then [] :: stringsSplit sep cs
    else
      match stringsSplit sep cs with
      | [] => [[c]]
      | h :: t => (c :: h) :: t

/-- Cut `s` at the first `sep`: the text before it and the text after it. -/
def cutAt (sep : Char) : Str → Option (Str × Str)
  | [] => none
  | c :: cs =>
    if c = sep then some ([], cs)
    else (cutAt sep cs).map (fun p => (c :: p.1, p.2))

/-- Go `strings.SplitN(s, sep, n)` for a one-byte separator and `n ≥ 0`: at most
`n` pieces, the last one being the unsplit remainder. -/
def stringsSplitN (sep : Char) : Nat → Str → List Str
  | 0, _ => []
  | 1, s => [s]
  | n + 2, s =>
    match cutAt sep s with
    | none => [s]
    | some (a, b) => a :: stringsSplitN sep (n + 1) b

/-- Go `unicode.IsSpace`. -/
def isSpace (c : Char) : Bool :=
  let n := c.toNat
  n = 9 || n = 10 || n = 11 || n = 12 || n = 13 || n = 32 || n = 0x85 || n = 0xA0 ||
  n = 0x1680 || (0x2000 ≤ n && n ≤ 0x200A) || n = 0x2028 || n = 0x2029 || n = 0x202F ||
  n = 0x205F || n = 0x3000

/-- Go `unicode.Upper`, first part: ranges of code points of the category Lu
(Unicode 14.0), as pairs of the first and the last code point. -/
def upperRangesA : List (Nat × Nat) :=
  [(0x41, 0x5A), (0xC0, 0xD6), (0xD8, 0xDE), (0x100, 0x100), (0x102, 0x102), (0x104, 0x104),
   (0x106, 0x106), (0x108, 0x108), (0x10A, 0x10A), (0x10C, 0x10C), (0x10E, 0x10E), (0x110, 0x110),
   (0x112, 0x112), (0x114, 0x114), (0x116, 0x116), (0x118, 0x118), (0x11A, 0x11A), (0x11C, 0x11C),
   (0x11E, 0x11E), (0x120, 0x120), (0x122, 0x122), (0x124, 0x124), (0x126, 0x126), (0x128, 0x128),
   (0x12A, 0x12A), (0x12C, 0x12C), (0x12E, 0x12E), (0x130, 0x130), (0x132, 0x132), (0x134, 0x134),
   (0x136, 0x136), (0x139, 0x139), (0x13B, 0x13B), (0x13D, 0x13D), (0x13F, 0x13F), (0x141, 0x141),
   (0x143, 0x143), (0x145, 0x145), (0x147, 0x147), (0x14A, 0x14A), (0x14C, 0x14C), (0x14E, 0x14E),
   (0x150, 0x150), (0x152, 0x152), (0x154, 0x154), (0x156, 0x156), (0x158, 0x158), (0x15A, 0x15A),
   (0x15C, 0x15C), (0x15E, 0x15E), (0x160, 0x160), (0x162, 0x162), (0x164, 0x164), (0x166, 0x166),
   (0x168, 0x168), (0x16A, 0x16A), (0x16C, 0x16C), (0x16E, 0x16E), (0x170, 0x170), (0x172, 0x172),
   (0x174, 0x174), (0x176, 0x176), (0x178, 0x179), (0x17B, 0x17B), (0x17D, 0x17D), (0x181, 0x182),
   (0x184, 0x184), (0x186, 0x187), (0x189, 0x18B), (0x18E, 0x191), (0x193, 0x194), (0x196, 0x198),
   (0x19C, 0x19D), (0x19F, 0x1A0), (0x1A2, 0x1A2), (0x1A4, 0x1A4), (0x1A6, 0x1A7), (0x1A9, 0x1A9),
   (0x1AC, 0x1AC), (0x1AE, 0x1AF), (0x1B1, 0x1B3), (0x1B5, 0x1B5), (0x1B7, 0x1B8), (0x1BC, 0x1BC),
   (0x1C4, 0x1C4), (0x1C7, 0x1C7), (0x1CA, 0x1CA), (0x1CD, 0x1CD), (0x1CF, 0x1CF), (0x1D1, 0x1D1),
   (0x1D3, 0x1D3), (0x1D5, 0x1D5), (0x1D7, 0x1D7), (0x1D9, 0x1D9), (0x1DB, 0x1DB), (0x1DE, 0x1DE),
   (0x1E0, 0x1E0), (0x1E2, 0x1E2), (0x1E4, 0x1E4), (0x1E6, 0x1E6), (0x1E8, 0x1E8), (0x1EA, 0x1EA),
   (0x1EC, 0x1EC), (0x1EE, 0x1EE), (0x1F1, 0x1F1), (0x1F4, 0x1F4), (0x1F6, 0x1F8), (0x1FA, 0x1FA),
   (0x1FC, 0x1FC), (0x1FE, 0x1FE)]

/-- Go `unicode.Upper`, second part: ranges of code points of the category Lu
(Unicode 14.0), as pairs of the first and the last code point. -/
def upperRangesB : List (Nat × Nat) :=
  [(0x200, 0x200), (0x202, 0x202), (0x204, 0x204), (0x206, 0x206), (0x208, 0x208), (0x20A, 0x20A),
   (0x20C, 0x20C), (0x20E, 0x20E), (0x210, 0x210), (0x212, 0x212), (0x214, 0x214), (0x216, 0x216),
   (0x218, 0x218), (0x21A, 0x21A), (0x21C, 0x21C), (0x21E, 0x21E), (0x220, 0x220), (0x222, 0x222),
   (0x224, 0x224), (0x226, 0x226), (0x228, 0x228), (0x22A, 0x22A), (0x22C, 0x22C), (0x22E, 0x22E),
   (0x230, 0x230), (0x232, 0x232), (0x23A, 0x23B), (0x23D, 0x23E), (0x241, 0x241), (0x243, 0x246),
   (0x248, 0x248), (0x24A, 0x24A), (0x24C, 0x24C), (0x24E, 0x24E), (0x370, 0x370), (0x372, 0x372),
   (0x376, 0x376), (0x37F, 0x37F), (0x386, 0x386), (0x388, 0x38A), (0x38C, 0x38C), (0x38E, 0x38F),
   (0x391, 0x3A1), (0x3A3, 0x3AB), (0x3CF, 0x3CF), (0x3D2, 0x3D4), (0x3D8, 0x3D8), (0x3DA, 0x3DA),
   (0x3DC, 0x3DC), (0x3DE, 0x3DE), (0x3E0, 0x3E0), (0x3E2, 0x3E2), (0x3E4, 0x3E4), (0x3E6, 0x3E6),
   (0x3E8, 0x3E8), (0x3EA, 0x3EA), (0x3EC, 0x3EC), (0x3EE, 0x3EE), (0x3F4, 0x3F4), (0x3F7, 0x3F7),
   (0x3F9, 0x3FA), (0x3FD, 0x42F), (0x460, 0x460), (0x462, 0x462), (0x464, 0x464), (0x466, 0x466),
   (0x468, 0x468), (0x46A, 0x46A), (0x46C, 0x46C), (0x46E, 0x46E), (0x470, 0x470), (0x472, 0x472),
   (0x474, 0x474), (0x476, 0x476), (0x478, 0x478), (0x47A, 0x47A), (0x47C, 0x47C), (0x47E, 0x47E),
   (0x480, 0x480), (0x48A, 0x48A), (0x48C, 0x48C), (0x48E, 0x48E), (0x490, 0x490), (0x492, 0x492),
   (0x494, 0x494), (0x496, 0x496), (0x498, 0x498), (0x49A, 0x49A), (0x49C, 0x49C), (0x49E, 0x49E),
   (0x4A0, 0x4A0), (0x4A2, 0x4A2), (0x4A4, 0x4A4), (0x4A6, 0x4A6), (0x4A8, 0x4A8), (0x4AA, 0x4AA),
   (0x4AC, 0x4AC), (0x4AE, 0x4AE), (0x4B0, 0x4B0), (0x4B2, 0x4B2), (0x4B4, 0x4B4), (0x4B6, 0x4B6),
   (0x4B8, 0x4B8), (0x4BA, 0x4BA), (0x4BC, 0x4BC), (0x4BE, 0x4BE), (0x4C0, 0x4C1), (0x4C3, 0x4C3),
   (0x4C5, 0x4C5), (0x4C7, 0x4C7)]

/-- Go `unicode.Upper`, third part: ranges of code points of the category Lu
(Unicode 14.0), as pairs of the first and the last code point. -/
def upperRangesC : List (Nat × Nat) :=
  [(0x4C9, 0x4C9), (0x4CB, 0x4CB), (0x4CD, 0x4CD), (0x4D0, 0x4D0), (0x4D2, 0x4D2), (0x4D4, 0x4D4),
   (0x4D6, 0x4D6), (0x4D8, 0x4D8), (0x4DA, 0x4DA), (0x4DC, 0x4DC), (0x4DE, 0x4DE), (0x4E0, 0x4E0),
   (0x4E2, 0x4E2), (0x4E4, 0x4E4), (0x4E6, 0x4E6), (0x4E8, 0x4E8), (0x4EA, 0x4EA), (0x4EC, 0x4EC),
   (0x4EE, 0x4EE), (0x4F0, 0x4F0), (0x4F2, 0x4F2), (0x4F4, 0x4F4), (0x4F6, 0x4F6), (0x4F8, 0x4F8),
   (0x4FA, 0x4FA), (0x4FC, 0x4FC), (0x4FE, 0x4FE), (0x500, 0x500), (0x502, 0x502), (0x504, 0x504),
   (0x506, 0x506), (0x508, 0x508), (0x50A, 0x50A), (0x50C, 0x50C), (0x50E, 0x50E), (0x510, 0x510),
   (0x512, 0x512), (0x514, 0x514), (0x516, 0x516), (0x518, 0x518), (0x51A, 0x51A), (0x51C, 0x51C),
   (0x51E, 0x51E), (0x520, 0x520), (0x522, 0x522), (0x524, 0x524), (0x526, 0x526), (0x528, 0x528),
   (0x52A, 0x52A), (0x52C, 0x52C), (0x52E, 0x52E), (0x531, 0x556), (0x10A0, 0x10C5), (0x10C7, 0x10C7),
   (0x10CD, 0x10CD), (0x13A0, 0x13F5), (0x1C90, 0x1CBA), (0x1CBD, 0x1CBF), (0x1E00, 0x1E00), (0x1E02, 0x1E02),
   (0x1E04, 0x1E04), (0x1E06, 0x1E06), (0x1E08, 0x1E08), (0x1E0A, 0x1E0A), (0x1E0C, 0x1E0C), (0x1E0E, 0x1E0E),
   (0x1E10, 0x1E10), (0x1E12, 0x1E12), (0x1E14, 0x1E14), (0x1E16, 0x1E16), (0x1E18, 0x1E18), (0x1E1A, 0x1E1A),
   (0x1E1C, 0x1E1C), (0x1E1E, 0x1E1E), (0x1E20, 0x1E20), (0x1E22, 0x1E22), (0x1E24, 0x1E24), (0x1E26, 0x1E26),
   (0x1E28, 0x1E28), (0x1E2A, 0x1E2A), (0x1E2C, 0x1E2C), (0x1E2E, 0x1E2E), (0x1E30, 0x1E30), (0x1E32, 0x1E32),
   (0x1E34, 0x1E34), (0x1E36, 0x1E36), (0x1E38, 0x1E38), (0x1E3A, 0x1E3A), (0x1E3C, 0x1E3C), (0x1E3E, 0x1E3E),
   (0x1E40, 0x1E40), (0x1E42, 0x1E42), (0x1E44, 0x1E44), (0x1E46, 0x1E46), (0x1E48, 0x1E48), (0x1E4A, 0x1E4A),
   (0x1E4C, 0x1E4C), (0x1E4E, 0x1E4E), (0x1E50, 0x1E50), (0x1E52, 0x1E52), (0x1E54, 0x1E54), (0x1E56, 0x1E56),
   (0x1E58, 0x1E58), (0x1E5A, 0x1E5A), (0x1E5C, 0x1E5C), (0x1E5E, 0x1E5E), (0x1E60, 0x1E60), (0x1E62, 0x1E62),
   (0x1E64, 0x1E64), (0x1E66, 0x1E66)]

/-- Go `unicode.Upper`, fourth part: ranges of code points of the category Lu
(Unicode 14.0), as pairs of the first and the last code point. -/
def upperRangesD : List (Nat × Nat) :=
  [(0x1E68, 0x1E68), (0x1E6A, 0x1E6A), (0x1E6C, 0x1E6C), (0x1E6E, 0x1E6E), (0x1E70, 0x1E70), (0x1E72, 0x1E72),
   (0x1E74, 0x1E74), (0x1E76, 0x1E76), (0x1E78, 0x1E78), (0x1E7A, 0x1E7A), (0x1E7C, 0x1E7C), (0x1E7E, 0x1E7E),
   (0x1E80, 0x1E80), (0x1E82, 0x1E82), (0x1E84, 0x1E84), (0x1E86, 0x1E86), (0x1E88, 0x1E88), (0x1E8A, 0x1E8A),
   (0x1E8C, 0x1E8C), (0x1E8E, 0x1E8E), (0x1E90, 0x1E90), (0x1E92, 0x1E92), (0x1E94, 0x1E94), (0x1E9E, 0x1E9E),
   (0x1EA0, 0x1EA0), (0x1EA2, 0x1EA2), (0x1EA4, 0x1EA4), (0x1EA6, 0x1EA6), (0x1EA8, 0x1EA8), (0x1EAA, 0x1EAA),
   (0x1EAC, 0x1EAC), (0x1EAE, 0x1EAE), (0x1EB0, 0x1EB0), (0x1EB2, 0x1EB2), (0x1EB4, 0x1EB4), (0x1EB6, 0x1EB6),
   (0x1EB8, 0x1EB8), (0x1EBA, 0x1EBA), (0x1EBC, 0x1EBC), (0x1EBE, 0x1EBE), (0x1EC0, 0x1EC0), (0x1EC2, 0x1EC2),
   (0x1EC4, 0x1EC4), (0x1EC6, 0x1EC6), (0x1EC8, 0x1EC8), (0x1ECA, 0x1ECA), (0x1ECC, 0x1ECC), (0x1ECE, 0x1ECE),
   (0x1ED0, 0x1ED0), (0x1ED2, 0x1ED2), (0x1ED4, 0x1ED4), (0x1ED6, 0x1ED6), (0x1ED8, 0x1ED8), (0x1EDA, 0x1EDA),
   (0x1EDC, 0x1EDC), (0x1EDE, 0x1EDE), (0x1EE0, 0x1EE0), (0x1EE2, 0x1EE2), (0x1EE4, 0x1EE4), (0x1EE6, 0x1EE6),
   (0x1EE8, 0x1EE8), (0x1EEA, 0x1EEA), (0x1EEC, 0x1EEC), (0x1EEE, 0x1EEE), (0x1EF0, 0x1EF0), (0x1EF2, 0x1EF2),
   (0x1EF4, 0x1EF4), (0x1EF6, 0x1EF6), (0x1EF8, 0x1EF8), (0x1EFA, 0x1EFA), (0x1EFC, 0x1EFC), (0x1EFE, 0x1EFE),
   (0x1F08, 0x1F0F), (0x1F18, 0x1F1D), (0x1F28, 0x1F2F), (0x1F38, 0x1F3F), (0x1F48, 0x1F4D), (0x1F59, 0x1F59),
   (0x1F5B, 0x1F5B), (0x1F5D, 0x1F5D), (0x1F5F, 0x1F5F), (0x1F68, 0x1F6F), (0x1FB8, 0x1FBB), (0x1FC8, 0x1FCB),
   (0x1FD8, 0x1FDB), (0x1FE8, 0x1FEC), (0x1FF8, 0x1FFB), (0x2102, 0x2102), (0x2107, 0x2107), (0x210B, 0x210D),
   (0x2110, 0x2112), (0x2115, 0x2115), (0x2119, 0x211D), (0x2124, 0x2124), (0x2126, 0x2126), (0x2128, 0x2128),
   (0x212A, 0x212D), (0x2130, 0x2133), (0x213E, 0x213F), (0x2145, 0x2145), (0x2183, 0x2183), (0x2C00, 0x2C2F),
   (0x2C60, 0x2C60), (0x2C62, 0x2C64), (0x2C67, 0x2C67), (0x2C69, 0x2C69), (0x2C6B, 0x2C6B), (0x2C6D, 0x2C70),
   (0x2C72, 0x2C72), (0x2C75, 0x2C75)]

/-- Go `unicode.Upper`, fifth part: ranges of code points of the category Lu
(Unicode 14.0), as pairs of the first and the last code point. -/
def upperRangesE : List (Nat × Nat) :=
  [(0x2C7E, 0x2C80), (0x2C82, 0x2C82), (0x2C84, 0x2C84), (0x2C86, 0x2C86), (0x2C88, 0x2C88), (0x2C8A, 0x2C8A),
   (0x2C8C, 0x2C8C), (0x2C8E, 0x2C8E), (0x2C90, 0x2C90), (0x2C92, 0x2C92), (0x2C94, 0x2C94), (0x2C96, 0x2C96),
   (0x2C98, 0x2C98), (0x2C9A, 0x2C9A), (0x2C9C, 0x2C9C), (0x2C9E, 0x2C9E), (0x2CA0, 0x2CA0), (0x2CA2, 0x2CA2),
   (0x2CA4, 0x2CA4), (0x2CA6, 0x2CA6), (0x2CA8, 0x2CA8), (0x2CAA, 0x2CAA), (0x2CAC, 0x2CAC), (0x2CAE, 0x2CAE),
   (0x2CB0, 0x2CB0), (0x2CB2, 0x2CB2), (0x2CB4, 0x2CB4), (0x2CB6, 0x2CB6), (0x2CB8, 0x2CB8), (0x2CBA, 0x2CBA),
   (0x2CBC, 0x2CBC), (0x2CBE, 0x2CBE), (0x2CC0, 0x2CC0), (0x2CC2, 0x2CC2), (0x2CC4, 0x2CC4), (0x2CC6, 0x2CC6),
   (0x2CC8, 0x2CC8), (0x2CCA, 0x2CCA), (0x2CCC, 0x2CCC), (0x2CCE, 0x2CCE), (0x2CD0, 0x2CD0), (0x2CD2, 0x2CD2),
   (0x2CD4, 0x2CD4), (0x2CD6, 0x2CD6), (0x2CD8, 0x2CD8), (0x2CDA, 0x2CDA), (0x2CDC, 0x2CDC), (0x2CDE, 0x2CDE),
   (0x2CE0, 0x2CE0), (0x2CE2, 0x2CE2), (0x2CEB, 0x2CEB), (0x2CED, 0x2CED), (0x2CF2, 0x2CF2), (0xA640, 0xA640),
   (0xA642, 0xA642), (0xA644, 0xA644), (0xA646, 0xA646), (0xA648, 0xA648), (0xA64A, 0xA64A), (0xA64C, 0xA64C),
   (0xA64E, 0xA64E), (0xA650, 0xA650), (0xA652, 0xA652), (0xA654, 0xA654), (0xA656, 0xA656), (0xA658, 0xA658),
   (0xA65A, 0xA65A), (0xA65C, 0xA65C), (0xA65E, 0xA65E), (0xA660, 0xA660), (0xA662, 0xA662), (0xA664, 0xA664),
   (0xA666, 0xA666), (0xA668, 0xA668), (0xA66A, 0xA66A), (0xA66C, 0xA66C), (0xA680, 0xA680), (0xA682, 0xA682),
   (0xA684, 0xA684), (0xA686, 0xA686), (0xA688, 0xA688), (0xA68A, 0xA68A), (0xA68C, 0xA68C), (0xA68E, 0xA68E),
   (0xA690, 0xA690), (0xA692, 0xA692), (0xA694, 0xA694), (0xA696, 0xA696), (0xA698, 0xA698), (0xA69A, 0xA69A),
   (0xA722, 0xA722), (0xA724, 0xA724), (0xA726, 0xA726), (0xA728, 0xA728), (0xA72A, 0xA72A), (0xA72C, 0xA72C),
   (0xA72E, 0xA72E), (0xA732, 0xA732), (0xA734, 0xA734), (0xA736, 0xA736), (0xA738, 0xA738), (0xA73A, 0xA73A),
   (0xA73C, 0xA73C), (0xA73E, 0xA73E), (0xA740, 0xA740), (0xA742, 0xA742), (0xA744, 0xA744), (0xA746, 0xA746),
   (0xA748, 0xA748), (0xA74A, 0xA74A)]

/-- Go `unicode.Upper`, sixth part: ranges of code points of the category Lu
(Unicode 14.0), as pairs of the first and the last code point. -/
def upperRangesF : List (Nat × Nat) :=
  [(0xA74C, 0xA74C), (0xA74E, 0xA74E), (0xA750, 0xA750), (0xA752, 0xA752), (0xA754, 0xA754), (0xA756, 0xA756),
   (0xA758, 0xA758), (0xA75A, 0xA75A), (0xA75C, 0xA75C), (0xA75E, 0xA75E), (0xA760, 0xA760), (0xA762, 0xA762),
   (0xA764, 0xA764), (0xA766, 0xA766), (0xA768, 0xA768), (0xA76A, 0xA76A), (0xA76C, 0xA76C), (0xA76E, 0xA76E),
   (0xA779, 0xA779), (0xA77B, 0xA77B), (0xA77D, 0xA77E), (0xA780, 0xA780), (0xA782, 0xA782), (0xA784, 0xA784),
   (0xA786, 0xA786), (0xA78B, 0xA78B), (0xA78D, 0xA78D), (0xA790, 0xA790), (0xA792, 0xA792), (0xA796, 0xA796),
   (0xA798, 0xA798), (0xA79A, 0xA79A), (0xA79C, 0xA79C), (0xA79E, 0xA79E), (0xA7A0, 0xA7A0), (0xA7A2, 0xA7A2),
   (0xA7A4, 0xA7A4), (0xA7A6, 0xA7A6), (0xA7A8, 0xA7A8), (0xA7AA, 0xA7AE), (0xA7B0, 0xA7B4), (0xA7B6, 0xA7B6),
   (0xA7B8, 0xA7B8), (0xA7BA, 0xA7BA), (0xA7BC, 0xA7BC), (0xA7BE, 0xA7BE), (0xA7C0, 0xA7C0), (0xA7C2, 0xA7C2),
   (0xA7C4, 0xA7C7), (0xA7C9, 0xA7C9), (0xA7D0, 0xA7D0), (0xA7D6, 0xA7D6), (0xA7D8, 0xA7D8), (0xA7F5, 0xA7F5),
   (0xFF21, 0xFF3A), (0x10400, 0x10427), (0x104B0, 0x104D3), (0x10570, 0x1057A), (0x1057C, 0x1058A), (0x1058C, 0x10592),
   (0x10594, 0x10595), (0x10C80, 0x10CB2), (0x118A0, 0x118BF), (0x16E40, 0x16E5F), (0x1D400, 0x1D419), (0x1D434, 0x1D44D),
   (0x1D468, 0x1D481), (0x1D49C, 0x1D49C), (0x1D49E, 0x1D49F), (0x1D4A2, 0x1D4A2), (0x1D4A5, 0x1D4A6), (0x1D4A9, 0x1D4AC),
   (0x1D4AE, 0x1D4B5), (0x1D4D0, 0x1D4E9), (0x1D504, 0x1D505), (0x1D507, 0x1D50A), (0x1D50D, 0x1D514), (0x1D516, 0x1D51C),
   (0x1D538, 0x1D539), (0x1D53B, 0x1D53E), (0x1D540, 0x1D544), (0x1D546, 0x1D546), (0x1D54A, 0x1D550), (0x1D56C, 0x1D585),
   (0x1D5A0, 0x1D5B9), (0x1D5D4, 0x1D5ED), (0x1D608, 0x1D621), (0x1D63C, 0x1D655), (0x1D670, 0x1D689), (0x1D6A8, 0x1D6C0),
   (0x1D6E2, 0x1D6FA), (0x1D71C, 0x1D734), (0x1D756, 0x1D76E), (0x1D790, 0x1D7A8), (0x1D7CA, 0x1D7CA), (0x1E900, 0x1E921)]

/-- Go `unicode.IsUpper(r)`: whether the code point is in the table
`unicode.Upper` of the upper case letters. -/
def unicodeIsUpper (c : Char) : Bool :=
  (upperRangesA ++ upperRangesB ++ upperRangesC ++ upperRangesD ++ upperRangesE ++
    upperRangesF).any (fun r => decide (r.1 ≤ c.toNat) && decide (c.toNat ≤ r.2))

/-- The scanning loop of `strings.Fields`: `cur` is the field being read, reversed. -/
def fieldsLoop : Str → Str → List Str
  | [], cur => if cur.isEmpty then [] else [cur.reverse]
  | c :: cs, cur =>
    if isSpace c then
      (if cur.isEmpty then fieldsLoop cs [] else cur.reverse :: fieldsLoop cs [])
    else fieldsLoop cs (c :: cur)

/-- Go `strings.Fields(s)`: the maximal runs of non-space characters. -/
def stringsFields (s : Str) : List Str :=
  fieldsLoop s []

/-- The backwards scan of `filepath.Ext` over the reversed path; `acc` is the
text already passed. -/
def extLoop : Str → Str → Str
  | [], _ => []
  | c :: cs, acc =>
    if c = '/' then []
    else if c = '.' then c :: acc
    else extLoop cs (c :: acc)

/-- Go `filepath.Ext(path)`: the suffix starting at the last dot of the last
path element, empty if there is no dot. -/
def filepathExt (path : Str) : Str :=
  extLoop path.reverse []

/-- The inner loop of the `..` case of `filepath.Clean`: starting from write
index `w`, step back while `w > dotdot` and `buf[w]` is not a separator. -/
def cleanBack (buf : Str) (dotdot : Nat) : Nat → Nat
  | 0 => 0
  | w + 1 =>
    if w + 1 > dotdot ∧ buf.getD (w + 1) ' ' ≠ '/' then cleanBack buf dotdot w
    else w + 1

/-- The main loop of `filepath.Clean` on a Unix path: `rest` is the unread part
of the path, `buf` the output written so far (its length is the write index
`w`), `dotdot` the index where `..` must stop.  Every iteration reads at least
one character, so a fuel of the length of the path is enough. -/
def cleanLoop (rooted : Bool) : Nat → Str → Str → Nat → Str
  | 0, _, buf, _ => buf
  | fuel + 1, rest, buf, dotdot =>
    match rest with
    | [] => buf
    | c :: cs =>
      if c = '/' then
        -- empty path element
        cleanLoop rooted fuel cs buf dotdot
      else if c = '.' ∧ (cs = [] ∨ cs.head? = some '/') then
        -- . element
        cleanLoop rooted fuel cs buf dotdot
      else if c = '.' ∧ cs.head? = some '.' ∧ (cs.tail = [] ∨ cs.tail.head? = some '/') then
        -- .. element: remove to last separator
        if buf.length > dotdot then
          cleanLoop rooted fuel cs.tail
            (buf.take (cleanBack buf dotdot (buf.length - 1))) dotdot
        else if ¬ rooted then
          let buf1 := if buf.length > 0 then buf ++ ['/'] else buf
          let buf2 := buf1 ++ ['.', '.']
          cleanLoop rooted fuel cs.tail buf2 buf2.length
        else cleanLoop rooted fuel cs.tail buf dotdot
      else
        -- real path element: add slash if needed, copy element
        let buf1 :=
          if (rooted ∧ buf.length ≠ 1) ∨ (¬ rooted ∧ buf.length ≠ 0) then buf ++ ['/'] else buf
        cleanLoop rooted fuel ((c :: cs).dropWhile (· ≠ '/'))
          (buf1 ++ (c :: cs).takeWhile (· ≠ '/')) dotdot

/-- Go `filepath.Clean(path)` on Unix (no volume name). -/
def filepathClean (path : Str) : Str :=
  match path with
  | [] => ['.']
  | c :: cs =>
    let rooted : Bool := c = '/'
    let out :=
      if rooted then cleanLoop true (path.length + 1) cs ['/'] 1
      else cleanLoop false (path.length + 1) (c :: cs) [] 0
    if out.length = 0 then ['.'] else out

/-- The backwards scan of `filepath.Dir` over the reversed path: drop the last
element, keep everything up to and including the last separator. -/
def dirLoop : Str → Str
  | [] => []
  | c :: cs => if c = '/' then c :: cs else dirLoop cs

/-- Go `filepath.Dir(path)` on Unix: all but the last element of the path,
cleaned. -/
def filepathDir (path : Str) : Str :=
  filepathClean (dirLoop path.reverse).reverse

/-- Go `filepath.Join(dir, name)` on Unix: the elements from the first
non-empty one on, joined by a separator and cleaned. -/
def filepathJoin (dir name : Str) : Str :=
  if dir ≠ [] then filepathClean (dir ++ '/' :: name)
  else if name ≠ [] then filepathClean name
  else []

/-! ## `src/git.go` -/

/-- Source `changeMode`: a byte. -/
abbrev changeMode := Char

/-- Source `validChangeTypes`. -/
def validChangeTypes : Str := "ACDMRTUXB".toList

def modeAdded : changeMode := 'A'
def modeCopied : changeMode := 'C'
def modeDeleted : changeMode := 'D'
def modeModified : changeMode := 'M'
def modeRenamed : changeMode := 'R'
def modeTypeChanged : changeMode := 'T'
def modeUnmerged : changeMode := 'U'
def modeUnknown : changeMode := 'X'
def modeBroken : changeMode := 'B'

/-- Source `changeMode.String`. -/
def changeMode.String (t : changeMode) : Str :=
  if t = modeAdded then "added".toList
  else if t = modeCopied then "copied".toList
  else if t = modeDeleted then "deleted".toList
  else if t = modeModified then "modified".toList
  else if t = modeRenamed then "renamed".toList
  else if t = modeUnknown then "unknown".toList
  else if t = modeBroken then "broken".toList
  else t :: "-invalid".toList

/-- Source `fileStat`. -/
structure fileStat where
  mode : changeMode
  path : Str
  oldPath : Str
  deriving DecidableEq, Repr

/-- The ways the functions of `git.go` fail. -/
inductive gitError where
  /-- `error running git: %s` and `git ls-tree %s:%s: %s`: the command failed. -/
  | running (err : Str)
  /-- `unexpected git output: %q`. -/
  | unexpectedOutput (line : Str)
  /-- `invalid change type: %q`. -/
  | invalidChangeType (line : Str)
  /-- `os.ErrNotExist`. -/
  | notExist
  /-- `ls-tree: unexpected line: %s`. -/
  | lsTreeUnexpectedLine (line : Str)
  deriving DecidableEq, Repr

/-- What running a command leaves behind: its standard output, its standard
error and the error of `cmd.Run()`, if any. -/
structure cmdResult where
  stdout : Str
  stderr : Str
  err : Option Str

/-- The body of the loop of `gitStats` (lines 69-88) for one non-empty line. -/
def parseStat (line : Str) : Except gitError fileStat :=
  let chops := stringsSplitN '\t' 3 line
  if chops.length < 2 ∨ (chops.getD 0 []).length = 0 then
    .error (.unexpectedOutput line)
  else
    let mod := (chops.getD 0 []).getD 0 default
    if stringsIndexByte validChangeTypes mod = -1 then
      .error (.invalidChangeType line)
    else
      let change : fileStat := { mode := mod, path := chops.getD 1 [], oldPath := chops.getD 1 [] }
      if mod = modeRenamed then
        if chops.length ≠ 3 then .error (.unexpectedOutput line)
        else .ok { change with path := chops.getD 2 [] }
      else .ok change

/-- The loop of `gitStats` (lines 65-90) over the remaining lines, `changes`
being the records appended so far. -/
def statsLoop : List Str → List fileStat → Except gitError (List fileStat)
  | [], changes => .ok changes
  | line :: lines, changes =>
    if line.length = 0 then statsLoop lines changes
    else
      match parseStat line with
      | .error e => .error e
      | .ok change => statsLoop lines (changes ++ [change])

/-- Source `gitStats`, given what `git diff --numstat --name-status ref` did. -/
def gitStats (cmd : cmdResult) : Except gitError (List fileStat) :=
  match cmd.err with
  | some err => .error (.running err)
  | none => statsLoop (stringsSplit '\n' cmd.stdout) []

/-- The loop of `gitLsTreeGoBlobs` (lines 114-133) over the remaining lines,
`blobs` being the names appended so far. -/
def lsTreeLoop : List Str → List Str → Except gitError (List Str)
  | [], blobs => .ok blobs
  | line :: lines, blobs =>
    if line.length = 0 then lsTreeLoop lines blobs
    else
      let chops := stringsFields line
      if chops.length ≠ 4 then .error (.lsTreeUnexpectedLine line)
      else if chops.getD 1 [] ≠ "blob".toList then lsTreeLoop lines blobs
      else if filepathExt (chops.getD 3 []) ≠ ".go".toList then lsTreeLoop lines blobs
      else if stringsHasSuffix (chops.getD 3 []) "_test.go".toList then lsTreeLoop lines blobs
      else lsTreeLoop lines (blobs ++ [chops.getD 3 []])

/-- Source `gitLsTreeGoBlobs`, given what `git ls-tree ref:path` did. -/
def gitLsTreeGoBlobs (cmd : cmdResult) : Except gitError (List Str) :=
  match cmd.err with
  | some err =>
    if stringsContains cmd.stderr "Not a valid object name".toList then .error .notExist
    else .error (.running err)
  | none => lsTreeLoop (stringsSplit '\n' cmd.stdout) []

/-! ## `src/main.go`: the selection of package directories -/

/-- Source `removePrivatePathSegments`: cut the directory at the first
`internal/`, then at the first `/internal`, then at the first `vendor/`, then
at the first `/vendor`. -/
def removePrivatePathSegments (dir : Str) : Str :=
  let dir :=
    let i := stringsIndex dir "internal/".toList
    if i > -1 then dir.take i.toNat else dir
  let dir :=
    let i := stringsIndex dir "/internal".toList
    if i > -1 then dir.take i.toNat else dir
  let dir :=
    let i := stringsIndex dir "vendor/".toList
    if i > -1 then dir.take i.toNat else dir
  let dir :=
    let i := stringsIndex dir "/vendor".toList
    if i > -1 then dir.take i.toNat else dir
  dir

/-- One iteration of the selection loop of `main` (lines 37-58): the key the
record puts into `pkgs`, or `none` when the iteration hits a `continue`. -/
def selectDir (stat : fileStat) : Option Str :=
  if stat.mode = modeAdded then none
  else
    let path := stat.oldPath
    if filepathExt path ≠ ".go".toList then none
    else if stringsHasSuffix path "_test.go".toList then none
    else
      let dir := removePrivatePathSegments (filepathDir path)
      if dir.length = 0 then none
      else
        let dir := if dir = ".".toList then "./".toList else dir
        some dir

/-- Go `pkgs[dir] = struct{}{}` on a map used as a set: the keys, without
repetition. -/
def mapInsert (pkgs : List Str) (dir : Str) : List Str :=
  if dir ∈ pkgs then pkgs else pkgs ++ [dir]

/-- The selection loop of `main` (lines 36-58): the keys of `pkgs` after the
loop over `stats`. -/
def selectPkgs (stats : List fileStat) : List Str :=
  stats.foldl
    (fun pkgs stat =>
      match selectDir stat with
      | none => pkgs
      | some dir => mapInsert pkgs dir)
    []

/-- One of the four cuts of `removePrivatePathSegments`: the directory up to the
first occurrence of `sub`, the whole directory if there is none. -/
def stripAt (sub dir : Str) : Str :=
  let i := stringsIndex dir sub
  if i > -1 then dir.take i.toNat else dir

/-- The map `.` to `./` of lines 54-56 of `main`. -/
def normDir (dir : Str) : Str :=
  if dir = ".".toList then "./".toList else dir

/-- A non-test Go source file, as lines 43-48 of `main` and lines 125-130 of
`gitLsTreeGoBlobs` test it: extension `.go` and no `_test.go` suffix. -/
def isGoSource (path : Str) : Bool :=
  decide (filepathExt path = ".go".toList) && !stringsHasSuffix path "_test.go".toList

/-- The records that the selection loop does not skip. -/
def selects (s : fileStat) : Prop :=
  s.mode ≠ modeAdded ∧ filepathExt s.oldPath = ".go".toList ∧
  stringsHasSuffix s.oldPath "_test.go".toList = false ∧
  removePrivatePathSegments (filepathDir s.oldPath) ≠ []

/-- The loop body of `selectPkgs`. -/
def selectStep (pkgs : List Str) (stat : fileStat) : List Str :=
  match selectDir stat with
  | none => pkgs
  | some dir => mapInsert pkgs dir

/-- The lines that make `gitLsTreeGoBlobs` fail: non-empty, and not made of
exactly four whitespace-separated fields. -/
def lsTreeBadLine (line : Str) : Prop :=
  line ≠ [] ∧ (stringsFields line).length ≠ 4

/-- The name a line of `git ls-tree` contributes: its fourth field, when its
second field is `blob` and the fourth is a non-test `.go` file. -/
def goBlobOfLine (line : Str) : Option Str :=
  match (stringsFields line)[1]?, (stringsFields line)[3]? with
  | some kind, some name =>
    if kind = "blob".toList ∧ filepathExt name = ".go".toList ∧
        ¬ ("_test.go".toList <:+ name) then some name
    else none
  | _, _ => none

/-! ## `src/main.go`: the check of the selected directories -/

/-- An `os.FileInfo` as far as `main` looks at it. -/
structure dirEntry where
  Name : Str
  IsDir : Bool

/-- The flags `-exit-code` and `-v` (after `-vv` has been folded into `-v`). -/
structure flags where
  exitCode : Int
  verbose : Bool

/-- Everything outside `src/` that the second loop of `main` calls, for a fixed
base reference: the file system, git, the Go parser, and the summary and
comparer of this repository, whose code is not part of the sources at hand.
`Ast` is a parsed file, `Summary` the state behind `newPackageSummary`,
`Comparer` the state behind `newDeclComparer`. -/
structure World (Ast Summary Comparer : Type) where
  /-- Calls `os.Open(dir)` and `fd.Readdir(-1)`: `none` when the directory cannot
  be opened, `some none` when it cannot be listed. -/
  osOpen : Str → Option (Option (List dirEntry))
  /-- Calls `parser.ParseFile(fsetHead, fullpath, nil, parser.DeclarationErrors)`,
  `none` on error. -/
  parseHead : Str → Option Ast
  /-- Calls `ast.FileExports(src)`: the file trimmed to its exported nodes, `none`
  when the result is `false`. -/
  FileExports : Ast → Option Ast
  newPackageSummary : Str → Summary
  /-- Calls `ast.Walk(summary, src)`. -/
  walkSummary : Summary → Ast → Summary
  newDeclComparer : Summary → Comparer
  /-- What `git ls-tree baseRef:dir` does. -/
  lsTree : Str → cmdResult
  /-- Calls `gitBlob(baseRef, fullpath)`: the content of the blob, `none` on error. -/
  gitBlob : Str → Option Str
  /-- Calls `parser.ParseFile(fsetBase, fullpath, r, parser.DeclarationErrors)`,
  `none` on error. -/
  parseBase : Str → Str → Option Ast
  /-- Calls `ast.Walk(comparer, src)`. -/
  walkComparer : Comparer → Ast → Comparer
  /-- Reads `comparer.report.Len()`. -/
  reportLen : Comparer → Nat
  /-- Reads `comparer.report.String()`. -/
  reportString : Comparer → Str

/-- What `main` writes to standard output. -/
inductive printed where
  /-- `fmt.Printf("%s: package removed\n\n", dir)`. -/
  | packageRemoved (dir : Str)
  /-- `fmt.Println(dir)` in verbose mode. -/
  | dirName (dir : Str)
  /-- `fmt.Println(comparer.report.String())`. -/
  | report (text : Str)
  deriving DecidableEq, Repr

/-- How one iteration of the loop over `pkgs` ends. -/
inductive dirResult (Comparer : Type) where
  /-- The directory could not be opened: `package removed` is printed and the loop
  continues. -/
  | removed
  /-- Ends in `log.Fatal`. -/
  | fatal
  /-- Both walks were done; `comparer` holds the report. -/
  | compared (comparer : Comparer)
  deriving DecidableEq, Repr

/-- How `main` ends. -/
inductive outcome where
  /-- Ends in `log.Fatal`: exit status 1. -/
  | fatal
  /-- Ends in `os.Exit(*exitCode)`, the failure exit. -/
  | failure (code : Int)
  /-- Ends when `main` returns. -/
  | returned
  deriving DecidableEq, Repr

/-- The loop over the directory listing (lines 81-94): the summary after the
walk of every non-test `.go` file with exports, `none` on `log.Fatal`. -/
def headLoop {Ast Summary Comparer : Type} (w : World Ast Summary Comparer) (dir : Str) :
    List dirEntry → Summary → Option Summary
  | [], summary => some summary
  | d :: list, summary =>
    if d.IsDir ∨ ¬ stringsHasSuffix d.Name ".go".toList ∨
        stringsHasSuffix d.Name "_test.go".toList then
      headLoop w dir list summary
    else
      match w.parseHead (filepathJoin dir d.Name) with
      | none => none
      | some src =>
        match w.FileExports src with
        | none => headLoop w dir list summary
        | some src => headLoop w dir list (w.walkSummary summary src)

/-- The loop over the blobs of the base reference (lines 102-116): the comparer
after the walk of every file with exports, `none` on `log.Fatal`. -/
def baseLoop {Ast Summary Comparer : Type} (w : World Ast Summary Comparer) (dir : Str) :
    List Str → Comparer → Option Comparer
  | [], comparer => some comparer
  | file :: blobs, comparer =>
    match w.gitBlob (filepathJoin dir file) with
    | none => none
    | some r =>
      match w.parseBase (filepathJoin dir file) r with
      | none => none
      | some src =>
        match w.FileExports src with
        | none => baseLoop w dir blobs comparer
        | some src => baseLoop w dir blobs (w.walkComparer comparer src)

/-- The body of the loop over `pkgs` up to the test of the report (lines 64-116),
with what it prints. -/
def checkDir {Ast Summary Comparer : Type} (f : flags) (w : World Ast Summary Comparer) (dir : Str) :
    dirResult Comparer × List printed :=
  match w.osOpen dir with
  | none => (.removed, [.packageRemoved dir])
  | some none => (.fatal, [])
  | some (some list) =>
    let out : List printed := if f.verbose then [.dirName dir] else []
    match headLoop w dir list (w.newPackageSummary dir) with
    | none => (.fatal, out)
    | some summary =>
      match gitLsTreeGoBlobs (w.lsTree dir) with
      | .error _ => (.fatal, out)
      | .ok blobs =>
        match baseLoop w dir blobs (w.newDeclComparer summary) with
        | none => (.fatal, out)
        | some comparer => (.compared comparer, out)

/-- The loop over `pkgs` and the end of `main` (lines 60-125): `failed` is the
flag of line 60, `out` the output so far. -/
def checkLoop {Ast Summary Comparer : Type} (f : flags) (w : World Ast Summary Comparer) :
    List Str → Bool → List printed → outcome × List printed
  | [], failed, out => (if failed then .failure f.exitCode else .returned, out)
  | dir :: dirs, failed, out =>
    match checkDir f w dir with
    | (.removed, o) => checkLoop f w dirs failed (out ++ o)
    | (.fatal, o) => (.fatal, out ++ o)
    | (.compared comparer, o) =>
      if w.reportLen comparer > 0 then
        checkLoop f w dirs true (out ++ o ++ [.report (w.reportString comparer)])
      else checkLoop f w dirs failed (out ++ o)

/-- A directory that could be opened and whose comparer holds a non-empty report. -/
def reportsBreak {Ast Summary Comparer : Type} (f : flags) (w : World Ast Summary Comparer) (dir : Str) : Prop :=
  (w.osOpen dir).isSome = true ∧
    ∃ comparer, (checkDir f w dir).1 = .compared comparer ∧ w.reportLen comparer > 0

/-- A world for examples: every directory but `gone` can be opened and holds one
file `x.go`, which is also the one blob of the base reference; the base file
`b/x.go` does not parse; the current state declares nothing, so that every base
file walked adds one finding to the comparer, whose state is the number of its
findings. -/
def demoWorld : World Unit Unit Nat where
  osOpen dir := if dir = "gone".toList then none else some (some [⟨"x.go".toList, false⟩])
  parseHead _ := some ()
  FileExports _ := some ()
  newPackageSummary _ := ()
  walkSummary summary _ := summary
  newDeclComparer _ := 0
  lsTree _ := { stdout := "100644 blob 0a1b\tx.go\n".toList, stderr := [], err := none }
  gitBlob _ := some []
  parseBase path _ := if path = "b/x.go".toList then none else some ()
  walkComparer comparer _ := comparer + 1
  reportLen comparer := comparer
  reportString _ := []

/-- The flags `-exit-code 3`, not verbose. -/
def demoFlags : flags := { exitCode := 3, verbose := false }

/-! ## The summary and the comparer

`newPackageSummary`, `newDeclComparer` and the report are code of this
repository that is not among the sources at hand; they are modelled from
sections 3 and 4 of the specification. -/

/-- Modelled from the spec: the `kind` of a Declaration (section 3). -/
inductive Kind where
  | Function | Method | Type | Field | Constant | Variable
  deriving DecidableEq, Repr

/-- Modelled from the spec: a Declaration (section 3), one exported program
element. `owner` is the `receiverType` of a Method or the `ownerType` of a Field
(or of a method nested under an interface type), `shape` the normalized
representation of its type information, `position` its source location. -/
structure Declaration where
  kind : Kind
  name : Str
  owner : Option Str
  shape : Str
  position : Nat
  deriving DecidableEq, Repr

/-- Modelled from the spec: the identity tuple (`kind`, `name`, `receiverType` or
`ownerType`) of the invariant of section 3. -/
structure Identity where
  kind : Kind
  name : Str
  owner : Option Str
  deriving DecidableEq, Repr

/-- Modelled from the spec: the identity tuple of a Declaration. -/
def Declaration.identity (d : Declaration) : Identity :=
  { kind := d.kind, name := d.name, owner := d.owner }

/-- Modelled from the spec: a top-level declaration of a parsed file, with the
fields of a struct type or the methods of an interface type as `members`. -/
structure TopDecl where
  decl : Declaration
  members : List Declaration
  deriving DecidableEq, Repr

/-- Modelled from the spec: a parsed source file, the declaration list that the
parsing collaborator of section 6 produces. -/
abbrev ParsedFile := List TopDecl

/-- Modelled from the spec: the naming convention of the glossary, an exported
identifier is a capitalized one; as Go `ast.IsExported` decides it, the first
character of the name is a Unicode upper case letter. -/
def isExported (name : Str) : Bool :=
  match name with
  | [] => false
  | c :: _ => unicodeIsUpper c

/-- Modelled from the spec: the pre-filter of sections 4.2 and 4.3, whether a
file contains an exported top-level declaration. -/
def hasExports (file : ParsedFile) : Bool :=
  file.any (fun t => isExported t.decl.name)

/-- Modelled from the spec: the expansion of one top-level declaration into its
constituent Declarations (section 4.2): nothing when it is not exported, else
the symbol itself and, for a type, each of its exported fields or methods,
nested under the owning type. -/
def expandDecl (t : TopDecl) : List Declaration :=
  if isExported t.decl.name then
    t.decl ::
      (if t.decl.kind = Kind.Type then
        (t.members.filter (fun m => isExported m.name)).map
          (fun m => { m with owner := some t.decl.name })
      else [])
  else []

/-- Modelled from the spec: the Declarations of a file, in the order the walk
encounters them. -/
def fileDecls (file : ParsedFile) : List Declaration :=
  file.flatMap expandDecl

/-- Modelled from the spec: the Declaration Index (section 3), a mapping from
identity tuple to Declaration, kept as the list of its writes, newest first. -/
abbrev Index := List (Identity × Declaration)

/-- Modelled from the spec: insertion into the Index under the identity tuple;
the last write wins. -/
def Index.insert (idx : Index) (d : Declaration) : Index :=
  (d.identity, d) :: idx

/-- Modelled from the spec: lookup in the Index by identity only. -/
def Index.lookup (idx : Index) (id : Identity) : Option Declaration :=
  match idx with
  | [] => none
  | (k, d) :: rest => if k = id then some d else Index.lookup rest id

/-- Modelled from the spec: the walk of the Package Summary Builder over one
file (section 4.2): every Declaration of the file is inserted into the Index. -/
def walkSummary (idx : Index) (file : ParsedFile) : Index :=
  (fileDecls file).foldl Index.insert idx

/-- Modelled from the spec: the Package Summary Builder over the files of the
current state, as lines 80-94 of `main` run it: a file without exported
top-level declarations is skipped, every other file is walked. -/
def buildSummary (files : List ParsedFile) : Index :=
  files.foldl (fun idx file => if hasExports file then walkSummary idx file else idx) []

/-- Modelled from the spec: a Finding other than `Unchanged` (section 3). -/
inductive Finding where
  /-- The identity of the base declaration is not in the current Index. -/
  | Removed (base : Declaration)
  /-- The identity is in the current Index with a different shape. -/
  | Changed (base current : Declaration)
  deriving DecidableEq, Repr

/-- Modelled from the spec: the base declaration a Finding carries. -/
def Finding.base : Finding → Declaration
  | .Removed b => b
  | .Changed b _ => b

/-- Modelled from the spec: the verdict of the Comparer for one base Declaration
(section 4.3): `Removed` when its identity is absent from the Index, `Changed`
when it is present with a different shape, no Finding when the shape is equal. -/
def classify (idx : Index) (d : Declaration) : Option Finding :=
  match idx.lookup d.identity with
  | none => some (.Removed d)
  | some cur => if cur.shape = d.shape then none else some (.Changed d cur)

/-- Modelled from the spec: the Declaration Comparer, the current Index and the
Report, the ordered sequence of the Findings so far. -/
structure DeclComparer where
  index : Index
  report : List Finding

/-- Modelled from the spec: `newDeclComparer(summary)`, a comparer over the
current Index with an empty Report. -/
def newDeclComparer (summary : Index) : DeclComparer :=
  { index := summary, report := [] }

/-- Modelled from the spec: the walk of the Comparer over one base file
(section 4.3): the Findings of its Declarations are appended in the order the
declarations are encountered. -/
def walkComparer (c : DeclComparer) (file : ParsedFile) : DeclComparer :=
  { c with report := c.report ++ (fileDecls file).filterMap (classify c.index) }

/-- Modelled from the spec: the Comparer over the files of the base state, as
lines 97-116 of `main` run it: a file without exported top-level declarations
is skipped, every other file is walked. -/
def compareBase (summary : Index) (files : List ParsedFile) : DeclComparer :=
  files.foldl (fun c file => if hasExports file then walkComparer c file else c)
    (newDeclComparer summary)

/-- The Report of one package directory: the Findings of the base files against
the summary of the current files. -/
def packageReport (base current : List ParsedFile) : List Finding :=
  (compareBase (buildSummary current) base).report

/-- The last Declaration with the identity `id` among `ds`, the one that the last
write to the Index leaves there. -/
def lastDeclared (id : Identity) : List Declaration → Option Declaration
  | [] => none
  | d :: ds =>
    match lastDeclared id ds with
    | some c => some c
    | none => if d.identity = id then some d else none

/-- The Declarations of all the files of one state of a package directory. -/
def stateDecls (files : List ParsedFile) : List Declaration :=
  files.flatMap fileDecls

/-- Lines 90-93 of `main`: the walk of the summary over a parsed file, unless the
file has no exports. -/
def summaryStep {Ast Summary Comparer : Type} (w : World Ast Summary Comparer)
    (summary : Summary) (src : Ast) : Summary :=
  match w.FileExports src with
  | none => summary
  | some src => w.walkSummary summary src

/-- Lines 112-115 of `main`: the walk of the comparer over a parsed base file,
unless the file has no exports. -/
def comparerStep {Ast Summary Comparer : Type} (w : World Ast Summary Comparer)
    (comparer : Comparer) (src : Ast) : Comparer :=
  match w.FileExports src with
  | none => comparer
  | some src => w.walkComparer comparer src

/-- The files that the loop over the directory listing parses (lines 81-89): the
non-test `.go` files of the listing, as parsed. -/
def headParsed {Ast Summary Comparer : Type} (w : World Ast Summary Comparer) (dir : Str)
    (list : List dirEntry) : List Ast :=
  list.filterMap (fun d =>
    if d.IsDir ∨ ¬ stringsHasSuffix d.Name ".go".toList ∨
        stringsHasSuffix d.Name "_test.go".toList then none
    else w.parseHead (filepathJoin dir d.Name))

/-- The files that the loop over the blobs parses (lines 102-111). -/
def baseParsed {Ast Summary Comparer : Type} (w : World Ast Summary Comparer) (dir : Str)
    (blobs : List Str) : List Ast :=
  blobs.filterMap (fun file =>
    (w.gitBlob (filepathJoin dir file)).bind (w.parseBase (filepathJoin dir file)))

/-- The collaborators of section 6 of the specification that stay outside the
summary and the comparer: the file system, git, the parser and the rendering
of a report. -/
structure Collaborators where
  osOpen : Str → Option (Option (List dirEntry))
  parseHead : Str → Option ParsedFile
  lsTree : Str → cmdResult
  gitBlob : Str → Option Str
  parseBase : Str → Str → Option ParsedFile
  render : List Finding → Str

/-- The world in which `main` runs the summary and the comparer as the
specification describes them. -/
def specWorld (e : Collaborators) : World ParsedFile Index DeclComparer where
  osOpen := e.osOpen
  parseHead := e.parseHead
  FileExports src := if hasExports src then some src else none
  newPackageSummary _ := []
  walkSummary := walkSummary
  newDeclComparer := newDeclComparer
  lsTree := e.lsTree
  gitBlob := e.gitBlob
  parseBase := e.parseBase
  walkComparer := walkComparer
  reportLen c := c.report.length
  reportString c := e.render c.report

/-- The function `Foo` of the examples, declared at `position`. -/
def declFoo (position : Nat) : Declaration :=
  { kind := .Function, name := "Foo".toList, owner := none,
    shape := "func(int) string".toList, position := position }

/-- A variant of the function `Foo` of the examples with another signature, as a
second file for another build tag declares it. -/
def declFooB : Declaration :=
  { kind := .Function, name := "Foo".toList, owner := none,
    shape := "func(int, int) string".toList, position := 2 }

/-- An exported function whose name starts with an upper case letter outside
ASCII. -/
def declEclair : Declaration :=
  { kind := .Function, name := "Éclair".toList, owner := none,
    shape := "func()".toList, position := 3 }

/-- The struct type `T` of the examples. -/
def declT : Declaration :=
  { kind := Kind.Type, name := "T".toList, owner := none, shape := "struct".toList,
    position := 5 }

/-- The field `X int` of the examples. -/
def declX : Declaration :=
  { kind := .Field, name := "X".toList, owner := some "T".toList, shape := "int".toList,
    position := 6 }

/-! ## Substring search -/

theorem indexOf?_eq_none {sub : Str} :
    ∀ {s : Str}, indexOf? sub s = none ↔ ¬ sub <:+: s
  | [] => by
    simp only [indexOf?, List.infix_nil]
    cases sub <;> simp [List.isPrefixOf]
  | c :: cs => by
    have ih := @indexOf?_eq_none sub cs
    simp only [indexOf?, List.infix_cons_iff, not_or]
    by_cases h : sub.isPrefixOf (c :: cs) = true
    · simp only [h, if_true]
      rw [List.isPrefixOf_iff_prefix] at h
      simp [h]
    · simp only [h]
      rw [List.isPrefixOf_iff_prefix] at h
      simp [h, ih]

theorem indexOf?_take_not_infix {sub : Str} (hsub : sub ≠ []) :
    ∀ {s : Str} {i : Nat}, indexOf? sub s = some i → ¬ sub <:+: s.take i
  | [], i, h => by
    simp only [List.take_nil, List.infix_nil]
    exact hsub
  | c :: cs, i, h => by
    simp only [indexOf?] at h
    by_cases hp : sub.isPrefixOf (c :: cs) = true
    · simp only [hp, if_true, Option.some.injEq] at h
      subst h
      simpa using hsub
    · rw [if_neg hp] at h
      rw [List.isPrefixOf_iff_prefix] at hp
      cases hj : indexOf? sub cs with
      | none => simp [hj] at h
      | some j =>
        simp only [hj, Option.map_some', Option.some.injEq] at h
        subst h
        have ih := indexOf?_take_not_infix hsub hj
        simp only [List.take_succ_cons, List.infix_cons_iff, not_or]
        refine ⟨fun hpre => hp ?_, ih⟩
        exact hpre.trans ((List.prefix_cons_inj c).2 ( List.take_prefix j cs))

theorem not_infix_of_isPrefix {sub p d : Str} (hp : p <+: d) (h : ¬ sub <:+: d) :
    ¬ sub <:+: p :=
  fun hs => h (hs.trans hp.isInfix)

theorem stripAt_isPrefix (sub dir : Str) : stripAt sub dir <+: dir := by
  unfold stripAt
  simp only
  split
  · exact List.take_prefix _ _
  · exact List.prefix_refl _

theorem stripAt_not_infix {sub : Str} (hsub : sub ≠ []) (dir : Str) :
    ¬ sub <:+: stripAt sub dir := by
  unfold stripAt stringsIndex
  cases h : indexOf? sub dir with
  | none => simpa using indexOf?_eq_none.1 h
  | some i =>
    have hi : ((i : Int) > -1) := by omega
    simpa [hi] using indexOf?_take_not_infix hsub h

theorem stripAt_of_not_infix {sub dir : Str} (h : ¬ sub <:+: dir) :
    stripAt sub dir = dir := by
  unfold stripAt stringsIndex
  rw [indexOf?_eq_none.2 h]
  simp

theorem removePrivatePathSegments_eq (dir : Str) :
    removePrivatePathSegments dir =
      stripAt "/vendor".toList (stripAt "vendor/".toList
        (stripAt "/internal".toList (stripAt "internal/".toList dir))) := rfl

theorem stringsContains_eq_false {s sub : Str} :
    stringsContains s sub = false ↔ ¬ sub <:+: s := by
  unfold stringsContains stringsIndex
  cases h : indexOf? sub s with
  | none => simpa using indexOf?_eq_none.1 h
  | some i =>
    have hne : indexOf? sub s ≠ none := by simp [h]
    have hin : sub <:+: s := not_not.1 (fun hc => hne (indexOf?_eq_none.2 hc))
    have hi : (0 : Int) ≤ (i : Int) := by omega
    simp [hi, hin]

theorem removePrivatePathSegments_isPrefix (d : Str) : removePrivatePathSegments d <+: d := by
  rw [removePrivatePathSegments_eq]
  exact (stripAt_isPrefix _ _).trans ((stripAt_isPrefix _ _).trans
    ((stripAt_isPrefix _ _).trans (stripAt_isPrefix _ _)))

theorem removePrivatePathSegments_not_infix (d : Str) :
    ¬ "internal/".toList <:+: removePrivatePathSegments d ∧
    ¬ "/internal".toList <:+: removePrivatePathSegments d ∧
    ¬ "vendor/".toList <:+: removePrivatePathSegments d ∧
    ¬ "/vendor".toList <:+: removePrivatePathSegments d := by
  rw [removePrivatePathSegments_eq]
  have h1 : ¬ "internal/".toList <:+: stripAt "internal/".toList d :=
    stripAt_not_infix (by decide) d
  have h2 : ¬ "/internal".toList <:+: stripAt "/internal".toList (stripAt "internal/".toList d) :=
    stripAt_not_infix (by decide) _
  have h3 : ¬ "vendor/".toList <:+: stripAt "vendor/".toList
      (stripAt "/internal".toList (stripAt "internal/".toList d)) :=
    stripAt_not_infix (by decide) _
  have h4 : ¬ "/vendor".toList <:+: stripAt "/vendor".toList (stripAt "vendor/".toList
      (stripAt "/internal".toList (stripAt "internal/".toList d))) :=
    stripAt_not_infix (by decide) _
  refine ⟨?_, ?_, ?_, h4⟩
  · exact not_infix_of_isPrefix ((stripAt_isPrefix _ _).trans
      ((stripAt_isPrefix _ _).trans (stripAt_isPrefix _ _))) h1
  · exact not_infix_of_isPrefix ((stripAt_isPrefix _ _).trans (stripAt_isPrefix _ _)) h2
  · exact not_infix_of_isPrefix (stripAt_isPrefix _ _) h3

theorem removePrivatePathSegments_of_not_infix {d : Str}
    (h1 : ¬ "internal/".toList <:+: d) (h2 : ¬ "/internal".toList <:+: d)
    (h3 : ¬ "vendor/".toList <:+: d) (h4 : ¬ "/vendor".toList <:+: d) :
    removePrivatePathSegments d = d := by
  rw [removePrivatePathSegments_eq, stripAt_of_not_infix h1, stripAt_of_not_infix h2,
    stripAt_of_not_infix h3, stripAt_of_not_infix h4]

/-! ## Claims about `removePrivatePathSegments` -/

/-- C10: for every string `d`, `removePrivatePathSegments d` is a prefix of `d`
in which `strings.Contains` finds none of `internal/`, `/internal`, `vendor/`,
`/vendor`, and applying `removePrivatePathSegments` to it again changes nothing. -/
theorem removePrivatePathSegments_idempotent (d : Str) :
    removePrivatePathSegments d <+: d ∧
    stringsContains (removePrivatePathSegments d) "internal/".toList = false ∧
    stringsContains (removePrivatePathSegments d) "/internal".toList = false ∧
    stringsContains (removePrivatePathSegments d) "vendor/".toList = false ∧
    stringsContains (removePrivatePathSegments d) "/vendor".toList = false ∧
    removePrivatePathSegments (removePrivatePathSegments d) = removePrivatePathSegments d := by
  obtain ⟨h1, h2, h3, h4⟩ := removePrivatePathSegments_not_infix d
  exact ⟨removePrivatePathSegments_isPrefix d, stringsContains_eq_false.2 h1,
    stringsContains_eq_false.2 h2, stringsContains_eq_false.2 h3,
    stringsContains_eq_false.2 h4, removePrivatePathSegments_of_not_infix h1 h2 h3 h4⟩

/-- C9, the code at `p = a`, `q = q`: `a` contains none of the four substrings,
yet `removePrivatePathSegments` maps `a/internal/q` to `a/` (and `a/vendor/q`
to `a/`), not to `a`, so that changes in `a` and below `a/internal` put the two
keys `a` and `a/` into the package set of `main`. -/
theorem removePrivatePathSegments_trailing_slash :
    stringsContains "a".toList "internal/".toList = false ∧
    stringsContains "a".toList "/internal".toList = false ∧
    stringsContains "a".toList "vendor/".toList = false ∧
    stringsContains "a".toList "/vendor".toList = false ∧
    removePrivatePathSegments "a".toList = "a".toList ∧
    removePrivatePathSegments "a/internal".toList = "a".toList ∧
    removePrivatePathSegments "a/internal/q".toList = "a/".toList ∧
    removePrivatePathSegments "a/vendor/q".toList = "a/".toList ∧
    selectPkgs
      [ { mode := modeModified, path := "a/x.go".toList, oldPath := "a/x.go".toList },
        { mode := modeModified, path := "a/internal/q/y.go".toList,
          oldPath := "a/internal/q/y.go".toList } ]
      = ["a".toList, "a/".toList] := by
  decide

/-- C2, the code at `myinternal/pkg` and `pkg/vendored`: no slash-separated
segment of these directories is `internal` or `vendor`, yet
`removePrivatePathSegments` cuts them to `my` and to `pkg`. -/
theorem removePrivatePathSegments_cuts_inside_segment :
    (∀ seg ∈ stringsSplit '/' "myinternal/pkg".toList,
      seg ≠ "internal".toList ∧ seg ≠ "vendor".toList) ∧
    removePrivatePathSegments "myinternal/pkg".toList = "my".toList ∧
    (∀ seg ∈ stringsSplit '/' "pkg/vendored".toList,
      seg ≠ "internal".toList ∧ seg ≠ "vendor".toList) ∧
    removePrivatePathSegments "pkg/vendored".toList = "pkg".toList := by
  decide

/-- C1, the code at a modified file `internal/foo.go`: the first segment of the
old path is `internal`, the file is a non-test `.go` file, yet the stripped
directory is `internal`, not the empty string, and the selection loop of `main`
puts the directory `internal` into the package set. -/
theorem selectPkgs_root_internal_selected :
    (stringsSplit '/' "internal/foo.go".toList).head? = some "internal".toList ∧
    isGoSource "internal/foo.go".toList = true ∧
    removePrivatePathSegments (filepathDir "internal/foo.go".toList) = "internal".toList ∧
    selectPkgs
      [ { mode := modeModified, path := "internal/foo.go".toList,
          oldPath := "internal/foo.go".toList } ]
      = ["internal".toList] ∧
    selectPkgs
      [ { mode := modeDeleted, path := "vendor/foo.go".toList,
          oldPath := "vendor/foo.go".toList } ]
      = ["vendor".toList] := by
  decide

/-- C8, the code at the change kinds `T` (TypeChanged) and `U` (Unmerged): both
are bytes of `validChangeTypes`, which `gitStats` accepts, and
`changeMode.String` returns the fallback `T-invalid` and `U-invalid` for them. -/
theorem changeMode_String_typeChanged_unmerged :
    stringsIndexByte validChangeTypes modeTypeChanged ≠ -1 ∧
    stringsIndexByte validChangeTypes modeUnmerged ≠ -1 ∧
    changeMode.String modeTypeChanged = "T-invalid".toList ∧
    changeMode.String modeUnmerged = "U-invalid".toList := by
  decide

/-! ## The selection loop of `main` -/

theorem selectPkgs_eq_foldl (stats : List fileStat) :
    selectPkgs stats = stats.foldl selectStep [] := rfl

theorem selectDir_eq_some {s : fileStat} {dir : Str} :
    selectDir s = some dir ↔
      selects s ∧ dir = normDir (removePrivatePathSegments (filepathDir s.oldPath)) := by
  unfold selectDir selects normDir
  generalize ".go".toList = goExt
  generalize "_test.go".toList = testSuffix
  generalize ".".toList = dot
  generalize "./".toList = dotSlash
  by_cases h1 : s.mode = modeAdded
  · simp [h1]
  by_cases h2 : filepathExt s.oldPath = goExt
  swap
  · simp [h1, h2]
  by_cases h3 : stringsHasSuffix s.oldPath testSuffix = true
  · simp [h1, h2, h3]
  by_cases h4 : removePrivatePathSegments (filepathDir s.oldPath) = []
  · simp [h1, h2, h3, h4]
  · simp [h1, h2, h3, h4, eq_comm]

theorem mem_mapInsert {pkgs : List Str} {dir d : Str} :
    d ∈ mapInsert pkgs dir ↔ d ∈ pkgs ∨ d = dir := by
  unfold mapInsert
  split
  · constructor
    · exact Or.inl
    · rintro (h | h)
      · exact h
      · subst h; assumption
  · simp

theorem nodup_mapInsert {pkgs : List Str} (dir : Str) (h : pkgs.Nodup) :
    (mapInsert pkgs dir).Nodup := by
  unfold mapInsert
  split
  · exact h
  · rename_i hn
    rw [List.nodup_append]
    refine ⟨h, List.nodup_singleton _, ?_⟩
    intro a ha hb
    simp only [List.mem_singleton] at hb
    subst hb
    exact hn ha

theorem mem_foldl_selectStep (stats : List fileStat) :
    ∀ (pkgs : List Str) (d : Str),
      d ∈ stats.foldl selectStep pkgs ↔ d ∈ pkgs ∨ ∃ s ∈ stats, selectDir s = some d := by
  induction stats with
  | nil => intro pkgs d; simp
  | cons s stats ih =>
    intro pkgs d
    rw [List.foldl_cons, ih]
    unfold selectStep
    cases hs : selectDir s with
    | none => simp [hs]
    | some dir =>
      simp only [mem_mapInsert, List.mem_cons, exists_eq_or_imp, hs, Option.some.injEq]
      constructor
      · rintro ((h | h) | h)
        · exact Or.inl h
        · exact Or.inr (Or.inl h.symm)
        · exact Or.inr (Or.inr h)
      · rintro (h | h | h)
        · exact Or.inl (Or.inl h)
        · exact Or.inl (Or.inr h.symm)
        · exact Or.inr h

theorem nodup_foldl_selectStep (stats : List fileStat) :
    ∀ (pkgs : List Str), pkgs.Nodup → (stats.foldl selectStep pkgs).Nodup := by
  induction stats with
  | nil => intro pkgs h; simpa using h
  | cons s stats ih =>
    intro pkgs h
    rw [List.foldl_cons]
    apply ih
    unfold selectStep
    cases selectDir s with
    | none => exact h
    | some dir => exact nodup_mapInsert dir h

theorem foldl_selectStep_filter (stats : List fileStat) :
    ∀ (pkgs : List Str),
      (stats.filter (fun s => decide (s.mode ≠ modeAdded))).foldl selectStep pkgs =
        stats.foldl selectStep pkgs := by
  induction stats with
  | nil => intro pkgs; rfl
  | cons s stats ih =>
    intro pkgs
    by_cases h : s.mode = modeAdded
    · have hstep : selectStep pkgs s = pkgs := by
        unfold selectStep selectDir
        simp [h]
      rw [List.filter_cons, if_neg (by simp [h]), List.foldl_cons, hstep]
      exact ih pkgs
    · rw [List.filter_cons, if_pos (by simp [h]), List.foldl_cons, List.foldl_cons]
      exact ih _

theorem foldl_selectStep_map (f : fileStat → Str) (stats : List fileStat) :
    ∀ (pkgs : List Str),
      (stats.map (fun s => { s with path := f s })).foldl selectStep pkgs =
        stats.foldl selectStep pkgs := by
  induction stats with
  | nil => intro pkgs; rfl
  | cons s stats ih =>
    intro pkgs
    rw [List.map_cons, List.foldl_cons, List.foldl_cons, ih]
    rfl

/-- C3: for every list of change records, the package set built by the selection
loop of `main` has no repeated key and holds exactly the directories
`normDir (removePrivatePathSegments (filepath.Dir s.oldPath))` of the records
`s` whose mode is not Added, whose old path has extension `.go` and no
`_test.go` suffix and whose stripped directory is non-empty; dropping the Added
records, or replacing the new path `path` of every record by anything else,
leaves the set unchanged. -/
theorem selectPkgs_spec (stats : List fileStat) :
    (∀ d : Str, d ∈ selectPkgs stats ↔
      ∃ s ∈ stats, selects s ∧
        d = normDir (removePrivatePathSegments (filepathDir s.oldPath))) ∧
    (selectPkgs stats).Nodup ∧
    selectPkgs (stats.filter (fun s => decide (s.mode ≠ modeAdded))) = selectPkgs stats ∧
    ∀ f : fileStat → Str,
      selectPkgs (stats.map (fun s => { s with path := f s })) = selectPkgs stats := by
  refine ⟨fun d => ?_, ?_, ?_, fun f => ?_⟩
  · rw [selectPkgs_eq_foldl, mem_foldl_selectStep]
    simp [selectDir_eq_some]
  · rw [selectPkgs_eq_foldl]
    exact nodup_foldl_selectStep stats [] List.nodup_nil
  · rw [selectPkgs_eq_foldl, selectPkgs_eq_foldl]
    exact foldl_selectStep_filter stats []
  · rw [selectPkgs_eq_foldl, selectPkgs_eq_foldl]
    exact foldl_selectStep_map f stats []

/-! ## The line parsing of `gitStats` -/

theorem cutAt_none {sep : Char} : ∀ {a : Str}, sep ∉ a → cutAt sep a = none
  | [], _ => rfl
  | c :: cs, h => by
    have hc : c ≠ sep := fun e => h (by simp [e])
    have hcs : sep ∉ cs := fun e => h (List.mem_cons_of_mem _ e)
    simp [cutAt, hc, cutAt_none hcs]

theorem cutAt_append {sep : Char} (b : Str) :
    ∀ {a : Str}, sep ∉ a → cutAt sep (a ++ sep :: b) = some (a, b)
  | [], _ => by simp [cutAt]
  | c :: cs, h => by
    have hc : c ≠ sep := fun e => h (by simp [e])
    have hcs : sep ∉ cs := fun e => h (List.mem_cons_of_mem _ e)
    simp [cutAt, hc, cutAt_append b hcs]

theorem stringsSplitN_one_path {a p : Str} (ha : '\t' ∉ a) (hp : '\t' ∉ p) :
    stringsSplitN '\t' 3 (a ++ '\t' :: p) = [a, p] := by
  simp [stringsSplitN, cutAt_append p ha, cutAt_none hp]

theorem stringsSplitN_two_paths {a p : Str} (q : Str) (ha : '\t' ∉ a) (hp : '\t' ∉ p) :
    stringsSplitN '\t' 3 (a ++ '\t' :: (p ++ '\t' :: q)) = [a, p, q] := by
  simp [stringsSplitN, cutAt_append (p ++ '\t' :: q) ha, cutAt_append q hp]

theorem validChangeTypes_accepts {c : Char} (hc : c ∈ validChangeTypes) :
    stringsIndexByte validChangeTypes c ≠ -1 ∧ c ≠ '\t' := by
  simp only [validChangeTypes, String.toList, List.mem_cons, List.mem_singleton,
    List.not_mem_nil, or_false] at hc
  rcases hc with h | h | h | h | h | h | h | h | h <;> subst h <;> decide

theorem parseStat_of_chops {line : Str} {c : Char} {score p : Str} {more : List Str}
    (hc : c ∈ validChangeTypes)
    (hchops : stringsSplitN '\t' 3 line = (c :: score) :: p :: more) :
    parseStat line =
      if c = modeRenamed then
        (if more.length ≠ 1 then .error (.unexpectedOutput line)
         else .ok { mode := c, path := more.getD 0 [], oldPath := p })
      else .ok { mode := c, path := p, oldPath := p } := by
  have hidx := (validChangeTypes_accepts hc).1
  unfold parseStat
  simp only [hchops]
  simp [hidx]

theorem statsLoop_cons_ok {line : Str} {change : fileStat} (lines : List Str)
    (changes : List fileStat) (h : parseStat line = .ok change) (hne : line ≠ []) :
    statsLoop (line :: lines) changes = statsLoop lines (changes ++ [change]) := by
  have hlen : line.length ≠ 0 := by simpa using hne
  simp [statsLoop, hlen, h]

theorem statsLoop_cons_error {line : Str} {e : gitError} (lines : List Str)
    (changes : List fileStat) (h : parseStat line = .error e) (hne : line ≠ []) :
    statsLoop (line :: lines) changes = .error e := by
  have hlen : line.length ≠ 0 := by simpa using hne
  simp [statsLoop, hlen, h]

/-- C4, the claim at the line `C100<tab>a.go<tab>b.go` (a copy of `a.go` to
`b.go`): the record of `gitStats` has mode `C` and old path `a.go`, and its
`path` is the pre-change path `a.go`, not the post-change path `b.go`. -/
theorem gitStats_copied_path :
    gitStats { stdout := "C100\ta.go\tb.go\n".toList, stderr := [], err := none } =
      .ok [{ mode := modeCopied, path := "a.go".toList, oldPath := "a.go".toList }] ∧
    "a.go".toList ≠ "b.go".toList := by
  refine ⟨rfl, by decide⟩

/-- C4 as amended: for a change-kind letter `c` of `ACDMRTUXB`, a score and a
pre-change path `p` without tabs, and any post-change path `q`, the loop of
`gitStats` appends for the line `c score <tab> p` of a kind other than Renamed
the record with mode `c` and `path = oldPath = p`; for the Renamed line
`c score <tab> p <tab> q` the record with mode `c`, `oldPath = p` and
`path = q`; for a two-path line of any other kind (a Copied line) the record
with mode `c` and `path = oldPath = p`; and for a Renamed line
`c score <tab> p` with a single path it appends no record and fails with
`unexpected git output`. -/
theorem statsLoop_line (c : Char) (score p q : Str) (lines : List Str)
    (changes : List fileStat) (hc : c ∈ validChangeTypes) (hs : '\t' ∉ score)
    (hp : '\t' ∉ p) :
    (c ≠ modeRenamed →
      statsLoop ((c :: score ++ '\t' :: p) :: lines) changes =
        statsLoop lines (changes ++ [{ mode := c, path := p, oldPath := p }])) ∧
    (c = modeRenamed →
      statsLoop ((c :: score ++ '\t' :: (p ++ '\t' :: q)) :: lines) changes =
        statsLoop lines (changes ++ [{ mode := c, path := q, oldPath := p }])) ∧
    (c ≠ modeRenamed →
      statsLoop ((c :: score ++ '\t' :: (p ++ '\t' :: q)) :: lines) changes =
        statsLoop lines (changes ++ [{ mode := c, path := p, oldPath := p }])) ∧
    (c = modeRenamed →
      statsLoop ((c :: score ++ '\t' :: p) :: lines) changes =
        .error (.unexpectedOutput (c :: score ++ '\t' :: p))) := by
  have ha : '\t' ∉ c :: score := by
    intro h
    rcases List.mem_cons.1 h with h | h
    · exact (validChangeTypes_accepts hc).2 h.symm
    · exact hs h
  have h1 := stringsSplitN_one_path ha hp
  have h2 := stringsSplitN_two_paths q ha hp
  refine ⟨fun hr => ?_, fun hr => ?_, fun hr => ?_, fun hr => ?_⟩
  · refine statsLoop_cons_ok lines changes ?_ (by simp)
    rw [parseStat_of_chops hc h1, if_neg hr]
  · refine statsLoop_cons_ok lines changes ?_ (by simp)
    rw [parseStat_of_chops hc h2, if_pos hr]
    simp
  · refine statsLoop_cons_ok lines changes ?_ (by simp)
    rw [parseStat_of_chops hc h2, if_neg hr]
  · refine statsLoop_cons_error lines changes ?_ (by simp)
    rw [parseStat_of_chops hc h1, if_pos hr]
    simp

/-- The theorem `statsLoop_line` at the letter `R`, the score `100` and the paths
`a/b.go` and `c/d.go`. -/
theorem statsLoop_line_witness :
    'R' ∈ validChangeTypes ∧ '\t' ∉ "100".toList ∧ '\t' ∉ "a/b.go".toList ∧
    statsLoop ["R100\ta/b.go\tc/d.go".toList] [] =
      .ok [{ mode := modeRenamed, path := "c/d.go".toList, oldPath := "a/b.go".toList }] :=
  ⟨by decide, by decide, by decide,
    ((statsLoop_line 'R' "100".toList "a/b.go".toList "c/d.go".toList [] []
      (by decide) (by decide) (by decide)).2.1 rfl)⟩

/-! ## The line processing of `gitLsTreeGoBlobs` -/

theorem lsTreeLoop_error {lines : List Str} :
    ∀ (blobs : List Str), (∃ line ∈ lines, lsTreeBadLine line) →
      ∃ e, lsTreeLoop lines blobs = .error e := by
  induction lines with
  | nil => intro blobs h; simp at h
  | cons line lines ih =>
    intro blobs h
    by_cases hb : lsTreeBadLine line
    · have hlen : line.length ≠ 0 := by simpa using hb.1
      exact ⟨.lsTreeUnexpectedLine line, by simp [lsTreeLoop, hlen, hb.2]⟩
    · have hrest : ∃ l ∈ lines, lsTreeBadLine l := by
        obtain ⟨l, hl, hbad⟩ := h
        rcases List.mem_cons.1 hl with e | hl
        · exact absurd (e ▸ hbad) hb
        · exact ⟨l, hl, hbad⟩
      unfold lsTreeLoop
      simp only []
      split_ifs
      all_goals first | exact ih _ hrest | exact ⟨_, rfl⟩

theorem goBlobOfLine_of_four {line : Str} (h : (stringsFields line).length = 4) :
    goBlobOfLine line =
      if (stringsFields line).getD 1 [] ≠ "blob".toList then none
      else if filepathExt ((stringsFields line).getD 3 []) ≠ ".go".toList then none
      else if stringsHasSuffix ((stringsFields line).getD 3 []) "_test.go".toList then none
      else some ((stringsFields line).getD 3 []) := by
  unfold goBlobOfLine stringsHasSuffix
  generalize "blob".toList = blob
  generalize ".go".toList = goExt
  generalize "_test.go".toList = testSuffix
  match hf : stringsFields line, h with
  | [f0, f1, f2, f3], _ =>
    simp only [List.getElem?_cons_succ, List.getElem?_cons_zero, List.getD_cons_succ,
      List.getD_cons_zero, List.isSuffixOf_iff_suffix]
    by_cases h1 : f1 = blob <;> by_cases h2 : filepathExt f3 = goExt <;>
      by_cases h3 : testSuffix <:+ f3 <;> simp [h1, h2, h3]

theorem lsTreeLoop_cons (line : Str) (lines blobs : List Str) :
    lsTreeLoop (line :: lines) blobs =
      if line.length = 0 then lsTreeLoop lines blobs
      else if (stringsFields line).length ≠ 4 then .error (.lsTreeUnexpectedLine line)
      else if (stringsFields line).getD 1 [] ≠ "blob".toList then lsTreeLoop lines blobs
      else if filepathExt ((stringsFields line).getD 3 []) ≠ ".go".toList then
        lsTreeLoop lines blobs
      else if stringsHasSuffix ((stringsFields line).getD 3 []) "_test.go".toList then
        lsTreeLoop lines blobs
      else lsTreeLoop lines (blobs ++ [(stringsFields line).getD 3 []]) := rfl

theorem lsTreeLoop_ok {lines : List Str} :
    ∀ (blobs : List Str), (∀ line ∈ lines, ¬ lsTreeBadLine line) →
      lsTreeLoop lines blobs = .ok (blobs ++ lines.filterMap goBlobOfLine) := by
  induction lines with
  | nil => intro blobs _; simp [lsTreeLoop]
  | cons line lines ih =>
    intro blobs h
    have hrest : ∀ l ∈ lines, ¬ lsTreeBadLine l := fun l hl => h l (List.mem_cons_of_mem _ hl)
    have hline : ¬ lsTreeBadLine line := h line (List.mem_cons_self _ _)
    by_cases he : line = []
    · subst he
      have hnone : goBlobOfLine [] = none := rfl
      simp [lsTreeLoop, List.filterMap_cons, hnone, ih blobs hrest]
    · have hfour : (stringsFields line).length = 4 := by
        by_contra hc
        exact hline ⟨he, hc⟩
      have hlen : line.length ≠ 0 := by simpa using he
      have hspec := goBlobOfLine_of_four hfour
      have ih1 := ih blobs hrest
      have ih2 := ih (blobs ++ [(stringsFields line).getD 3 []]) hrest
      rw [lsTreeLoop_cons, List.filterMap_cons, hspec]
      generalize "blob".toList = blob at *
      generalize ".go".toList = goExt at *
      generalize "_test.go".toList = testSuffix at *
      generalize (stringsFields line).getD 1 [] = f1 at *
      generalize (stringsFields line).getD 3 [] = f3 at *
      by_cases h1 : f1 = blob <;> by_cases h2 : filepathExt f3 = goExt <;>
        by_cases h3 : stringsHasSuffix f3 testSuffix = true <;>
        simp [hlen, hfour, h1, h2, h3, ih1, ih2]

/-- C5: for every text `out` written by `git ls-tree`, `gitLsTreeGoBlobs` fails
if and only if some non-empty line of `out` does not split into exactly four
whitespace-separated fields; and it returns a list `bs` if and only if there is
no such line and `bs` is, in the order of the lines, the fourth field of every
line whose second field is `blob` and whose fourth field has extension `.go`
and no `_test.go` suffix. -/
theorem gitLsTreeGoBlobs_spec (out errOut : Str) :
    ((∃ e, gitLsTreeGoBlobs { stdout := out, stderr := errOut, err := none } = .error e) ↔
      ∃ line ∈ stringsSplit '\n' out, line ≠ [] ∧ (stringsFields line).length ≠ 4) ∧
    (∀ bs : List Str,
      gitLsTreeGoBlobs { stdout := out, stderr := errOut, err := none } = .ok bs ↔
        (¬ ∃ line ∈ stringsSplit '\n' out, line ≠ [] ∧ (stringsFields line).length ≠ 4) ∧
        bs = (stringsSplit '\n' out).filterMap goBlobOfLine) := by
  have hrun : gitLsTreeGoBlobs { stdout := out, stderr := errOut, err := none } =
      lsTreeLoop (stringsSplit '\n' out) [] := rfl
  rw [hrun]
  by_cases hbad : ∃ line ∈ stringsSplit '\n' out, lsTreeBadLine line
  · obtain ⟨e, he⟩ := lsTreeLoop_error [] hbad
    have hbad2 : ∃ line ∈ stringsSplit '\n' out, line ≠ [] ∧ (stringsFields line).length ≠ 4 :=
      hbad
    refine ⟨⟨fun _ => hbad2, fun _ => ⟨e, he⟩⟩, fun bs => ?_⟩
    rw [he]
    constructor
    · intro h; cases h
    · intro h; exact absurd hbad2 h.1
  · have hgood : ∀ line ∈ stringsSplit '\n' out, ¬ lsTreeBadLine line :=
      fun l hl hb => hbad ⟨l, hl, hb⟩
    have hok := lsTreeLoop_ok [] hgood
    have hbad2 : ¬ ∃ line ∈ stringsSplit '\n' out, line ≠ [] ∧ (stringsFields line).length ≠ 4 :=
      hbad
    rw [hok]
    refine ⟨⟨fun h => ?_, fun h => absurd h hbad2⟩, fun bs => ?_⟩
    · obtain ⟨e, he⟩ := h
      cases he
    · simp only [List.nil_append, Except.ok.injEq]
      constructor
      · intro h; exact ⟨hbad2, h.symm⟩
      · intro h; exact h.2.symm

/-! ## The loop over the selected directories -/

theorem checkDir_removed_of_not_open {Ast Summary Comparer : Type} (f : flags) (w : World Ast Summary Comparer) {dir : Str}
    (h : w.osOpen dir = none) : checkDir f w dir = (.removed, [.packageRemoved dir]) := by
  simp [checkDir, h]

theorem checkDir_open_of_compared {Ast Summary Comparer : Type} (f : flags) (w : World Ast Summary Comparer) {dir : Str}
    {comparer : Comparer} (h : (checkDir f w dir).1 = .compared comparer) :
    (w.osOpen dir).isSome = true := by
  cases ho : w.osOpen dir with
  | none => rw [checkDir_removed_of_not_open f w ho] at h; cases h
  | some l => rfl

theorem checkLoop_failure_iff {Ast Summary Comparer : Type} (f : flags) (w : World Ast Summary Comparer) (dirs : List Str) :
    ∀ (failed : Bool) (out : List printed),
      (∀ dir ∈ dirs, (checkDir f w dir).1 ≠ .fatal) →
      (((checkLoop f w dirs failed out).1 = .failure f.exitCode ↔
          failed = true ∨ ∃ dir ∈ dirs, reportsBreak f w dir) ∧
        ((checkLoop f w dirs failed out).1 = .failure f.exitCode ∨
          (checkLoop f w dirs failed out).1 = .returned)) := by
  induction dirs with
  | nil =>
    intro failed out _
    cases failed <;> simp [checkLoop]
  | cons dir dirs ih =>
    intro failed out hfatal
    have hrest : ∀ d ∈ dirs, (checkDir f w d).1 ≠ .fatal :=
      fun d hd => hfatal d (List.mem_cons_of_mem _ hd)
    have hdir := hfatal dir (List.mem_cons_self _ _)
    rcases hcd : checkDir f w dir with ⟨r, o⟩
    rw [hcd] at hdir
    cases r with
    | fatal => exact absurd rfl hdir
    | removed =>
      have hno : ¬ reportsBreak f w dir := by
        rintro ⟨_, c, hc, _⟩
        rw [hcd] at hc
        cases hc
      have hstep : checkLoop f w (dir :: dirs) failed out = checkLoop f w dirs failed (out ++ o) := by
        simp [checkLoop, hcd]
      rw [hstep]
      obtain ⟨h1, h2⟩ := ih failed (out ++ o) hrest
      refine ⟨?_, h2⟩
      rw [h1]
      simp [hno]
    | compared c =>
      by_cases hlen : w.reportLen c > 0
      · have hyes : reportsBreak f w dir :=
          ⟨checkDir_open_of_compared f w (by rw [hcd]), c, by rw [hcd], hlen⟩
        have hstep : checkLoop f w (dir :: dirs) failed out =
            checkLoop f w dirs true (out ++ o ++ [.report (w.reportString c)]) := by
          simp [checkLoop, hcd, hlen]
        rw [hstep]
        obtain ⟨h1, h2⟩ := ih true (out ++ o ++ [.report (w.reportString c)]) hrest
        refine ⟨?_, h2⟩
        rw [h1]
        simp [hyes]
      · have hno : ¬ reportsBreak f w dir := by
          rintro ⟨_, c2, hc, hpos⟩
          rw [hcd] at hc
          cases hc
          exact hlen hpos
        have hstep : checkLoop f w (dir :: dirs) failed out =
            checkLoop f w dirs failed (out ++ o) := by
          simp [checkLoop, hcd, hlen]
        rw [hstep]
        obtain ⟨h1, h2⟩ := ih failed (out ++ o) hrest
        refine ⟨?_, h2⟩
        rw [h1]
        simp [hno]

/-- C6, the claim at the directories `a` and `b` of `demoWorld`, checked in this
order: `a` can be opened and its report has one finding, which is printed; the
check of `b` then ends in `log.Fatal` because a base file does not parse, so
`main` ends with the fatal exit and not with `os.Exit(*exitCode)`. -/
theorem checkLoop_fatal_after_report :
    (∃ dir ∈ ["a".toList, "b".toList], reportsBreak demoFlags demoWorld dir) ∧
    checkLoop demoFlags demoWorld ["a".toList, "b".toList] false [] =
      (.fatal, [.report []]) ∧
    (checkLoop demoFlags demoWorld ["a".toList, "b".toList] false []).1 ≠
      .failure demoFlags.exitCode := by
  refine ⟨⟨"a".toList, by decide, rfl, 1, rfl, by decide⟩, rfl, by decide⟩

theorem checkLoop_fatal_iff {Ast Summary Comparer : Type} (f : flags)
    (w : World Ast Summary Comparer) (dirs : List Str) :
    ∀ (failed : Bool) (out : List printed),
      (checkLoop f w dirs failed out).1 = .fatal ↔
        ∃ dir ∈ dirs, (checkDir f w dir).1 = .fatal := by
  induction dirs with
  | nil =>
    intro failed out
    cases failed <;> simp [checkLoop]
  | cons dir dirs ih =>
    intro failed out
    rcases hcd : checkDir f w dir with ⟨r, o⟩
    cases r with
    | fatal =>
      have hstep : checkLoop f w (dir :: dirs) failed out = (.fatal, out ++ o) := by
        simp [checkLoop, hcd]
      rw [hstep]
      simp [hcd]
    | removed =>
      have hstep : checkLoop f w (dir :: dirs) failed out =
          checkLoop f w dirs failed (out ++ o) := by
        simp [checkLoop, hcd]
      rw [hstep, ih]
      simp [hcd]
    | compared c =>
      by_cases hlen : w.reportLen c > 0
      · have hstep : checkLoop f w (dir :: dirs) failed out =
            checkLoop f w dirs true (out ++ o ++ [.report (w.reportString c)]) := by
          simp [checkLoop, hcd, hlen]
        rw [hstep, ih]
        simp [hcd]
      · have hstep : checkLoop f w (dir :: dirs) failed out =
            checkLoop f w dirs failed (out ++ o) := by
          simp [checkLoop, hcd, hlen]
        rw [hstep, ih]
        simp [hcd]

theorem checkLoop_stops_at_fatal {Ast Summary Comparer : Type} (f : flags)
    (w : World Ast Summary Comparer) {dir : Str} (hdir : (checkDir f w dir).1 = .fatal)
    (rest : List Str) (pre : List Str) :
    ∀ (failed : Bool) (out : List printed),
      checkLoop f w (pre ++ dir :: rest) failed out =
        checkLoop f w (pre ++ [dir]) failed out := by
  induction pre with
  | nil =>
    intro failed out
    rcases hcd : checkDir f w dir with ⟨r, o⟩
    rw [hcd] at hdir
    simp only at hdir
    subst hdir
    simp [checkLoop, hcd]
  | cons x pre ih =>
    intro failed out
    rw [List.cons_append, List.cons_append]
    rcases hcd : checkDir f w x with ⟨r, o⟩
    cases r with
    | fatal => simp [checkLoop, hcd]
    | removed => simp [checkLoop, hcd, ih]
    | compared c =>
      by_cases hlen : w.reportLen c > 0 <;> simp [checkLoop, hcd, hlen, ih]

/-- C6 as amended: `main` ends with the fatal exit if and only if the check of
some selected directory ends in `log.Fatal`, and it ends there: the
directories after that one change neither the exit nor the output, whatever
reports the earlier ones produced. When no check ends in `log.Fatal`, `main`
ends in `os.Exit(*exitCode)` if and only if some directory that could be
opened left a comparer with `report.Len() > 0`, and otherwise returns. An
iteration for a directory that cannot be opened only prints `package removed`
and goes on with the `failed` flag as it was. -/
theorem checkLoop_exit {Ast Summary Comparer : Type} (f : flags)
    (w : World Ast Summary Comparer) (dirs : List Str) :
    ((checkLoop f w dirs false []).1 = .fatal ↔
      ∃ dir ∈ dirs, (checkDir f w dir).1 = .fatal) ∧
    (∀ (pre : List Str) (dir : Str) (rest : List Str) (failed : Bool) (out : List printed),
      (checkDir f w dir).1 = .fatal →
        checkLoop f w (pre ++ dir :: rest) failed out =
          checkLoop f w (pre ++ [dir]) failed out) ∧
    ((∀ dir ∈ dirs, (checkDir f w dir).1 ≠ .fatal) →
      ((checkLoop f w dirs false []).1 = .failure f.exitCode ↔
        ∃ dir ∈ dirs, reportsBreak f w dir) ∧
      ((checkLoop f w dirs false []).1 = .returned ↔
        ¬ ∃ dir ∈ dirs, reportsBreak f w dir)) ∧
    (∀ (dir : Str) (rest : List Str) (failed : Bool) (out : List printed),
      w.osOpen dir = none →
        checkDir f w dir = (.removed, [.packageRemoved dir]) ∧
        checkLoop f w (dir :: rest) failed out =
          checkLoop f w rest failed (out ++ [.packageRemoved dir])) := by
  refine ⟨checkLoop_fatal_iff f w dirs false [], ?_, ?_, ?_⟩
  · intro pre dir rest failed out hdir
    exact checkLoop_stops_at_fatal f w hdir rest pre failed out
  · intro hfatal
    obtain ⟨h1, h2⟩ := checkLoop_failure_iff f w dirs false [] hfatal
    have h1b : (checkLoop f w dirs false []).1 = .failure f.exitCode ↔
        ∃ dir ∈ dirs, reportsBreak f w dir := by
      rw [h1]; simp
    refine ⟨h1b, ?_⟩
    rw [← h1b]
    constructor
    · intro hr hf
      rw [hr] at hf
      cases hf
    · intro hn
      rcases h2 with h | h
      · exact absurd h hn
      · exact h
  · intro dir rest failed out hopen
    have hcd := checkDir_removed_of_not_open f w hopen
    refine ⟨hcd, ?_⟩
    simp [checkLoop, hcd]

/-- The theorem `checkLoop_exit` at the directories `gone` and `a` of `demoWorld`,
where no check is fatal, and at `b`, whose check is: the loop over `gone`, `a`
ends in the failure exit, and the loop over `a`, `b`, `gone` ends like the one
over `a`, `b`. -/
theorem checkLoop_exit_witness :
    (∀ dir ∈ ["gone".toList, "a".toList], (checkDir demoFlags demoWorld dir).1 ≠ .fatal) ∧
    checkLoop demoFlags demoWorld ["gone".toList, "a".toList] false [] =
      (.failure 3, [.packageRemoved "gone".toList, .report []]) ∧
    ((checkLoop demoFlags demoWorld ["gone".toList, "a".toList] false []).1 =
        .failure demoFlags.exitCode ↔
      ∃ dir ∈ ["gone".toList, "a".toList], reportsBreak demoFlags demoWorld dir) ∧
    (checkDir demoFlags demoWorld "b".toList).1 = .fatal ∧
    checkLoop demoFlags demoWorld (["a".toList] ++ "b".toList :: ["gone".toList]) false [] =
      checkLoop demoFlags demoWorld (["a".toList] ++ ["b".toList]) false [] :=
  ⟨by decide, rfl,
    ((checkLoop_exit demoFlags demoWorld ["gone".toList, "a".toList]).2.2.1 (by decide)).1,
    rfl,
    (checkLoop_exit demoFlags demoWorld ["gone".toList, "a".toList]).2.1
      ["a".toList] "b".toList ["gone".toList] false [] rfl⟩

/-! ## Removal detection by the comparer -/

theorem fileDecls_of_not_hasExports {file : ParsedFile} (h : hasExports file = false) :
    fileDecls file = [] := by
  unfold fileDecls
  unfold hasExports at h
  rw [List.any_eq_false] at h
  induction file with
  | nil => rfl
  | cons t ts ih =>
    have ht : isExported t.decl.name = false := by
      simpa using h t (List.mem_cons_self _ _)
    have hts : ∀ x ∈ ts, ¬ isExported x.decl.name = true :=
      fun x hx => h x (List.mem_cons_of_mem _ hx)
    rw [List.flatMap_cons, ih hts]
    simp [expandDecl, ht]

theorem foldl_walkSummary (files : List ParsedFile) :
    ∀ idx : Index,
      files.foldl (fun idx file => if hasExports file then walkSummary idx file else idx) idx =
        (stateDecls files).foldl Index.insert idx := by
  induction files with
  | nil => intro idx; rfl
  | cons file files ih =>
    intro idx
    rw [List.foldl_cons, ih]
    unfold stateDecls
    rw [List.flatMap_cons, List.foldl_append]
    by_cases h : hasExports file = true
    · simp [h, walkSummary]
    · have h2 : hasExports file = false := by simpa using h
      simp [h2, fileDecls_of_not_hasExports h2]

theorem buildSummary_eq (files : List ParsedFile) :
    buildSummary files = (stateDecls files).foldl Index.insert [] :=
  foldl_walkSummary files []

theorem lookup_foldl_insert_eq_none (ds : List Declaration) (id : Identity) :
    ∀ idx : Index,
      Index.lookup (ds.foldl Index.insert idx) id = none ↔
        Index.lookup idx id = none ∧ ∀ d ∈ ds, d.identity ≠ id := by
  induction ds with
  | nil => intro idx; simp
  | cons d ds ih =>
    intro idx
    rw [List.foldl_cons, ih]
    by_cases h : d.identity = id
    · simp [Index.insert, Index.lookup, h]
    · simp [Index.insert, Index.lookup, h]

theorem lookup_foldl_insert_some (ds : List Declaration) (id : Identity) (c : Declaration) :
    ∀ idx : Index,
      Index.lookup (ds.foldl Index.insert idx) id = some c →
        Index.lookup idx id = some c ∨ (c ∈ ds ∧ c.identity = id) := by
  induction ds with
  | nil => intro idx h; exact Or.inl h
  | cons d ds ih =>
    intro idx h
    rw [List.foldl_cons] at h
    rcases ih _ h with h1 | ⟨h1, h2⟩
    · by_cases hd : d.identity = id
      · simp only [Index.insert, Index.lookup, hd, if_true, Option.some.injEq] at h1
        subst h1
        exact Or.inr ⟨List.mem_cons_self _ _, hd⟩
      · simp only [Index.insert, Index.lookup, hd, if_false] at h1
        exact Or.inl h1
    · exact Or.inr ⟨List.mem_cons_of_mem _ h1, h2⟩

theorem foldl_walkComparer (files : List ParsedFile) :
    ∀ c : DeclComparer,
      files.foldl (fun c file => if hasExports file then walkComparer c file else c) c =
        { index := c.index,
          report := c.report ++ (stateDecls files).filterMap (classify c.index) } := by
  induction files with
  | nil => intro c; simp [stateDecls]
  | cons file files ih =>
    intro c
    rw [List.foldl_cons, ih]
    unfold stateDecls
    rw [List.flatMap_cons, List.filterMap_append]
    by_cases h : hasExports file = true
    · simp [h, walkComparer]
    · have h2 : hasExports file = false := by simpa using h
      simp [h2, fileDecls_of_not_hasExports h2]

theorem packageReport_eq (base current : List ParsedFile) :
    packageReport base current =
      (stateDecls base).filterMap (classify (buildSummary current)) := by
  unfold packageReport compareBase
  rw [foldl_walkComparer]
  simp [newDeclComparer]

theorem classify_base {idx : Index} {d : Declaration} {f : Finding}
    (h : classify idx d = some f) : f.base = d := by
  unfold classify at h
  cases hl : idx.lookup d.identity with
  | none =>
    simp only [hl, Option.some.injEq] at h
    subst h; rfl
  | some cur =>
    simp only [hl] at h
    split_ifs at h
    simp only [Option.some.injEq] at h
    subst h; rfl

theorem filter_filterMap_classify {idx : Index} {id : Identity}
    (hgone : idx.lookup id = none) (ds : List Declaration) :
    (ds.filterMap (classify idx)).filter (fun f => decide (f.base.identity = id)) =
      (ds.filter (fun b => decide (b.identity = id))).map Finding.Removed := by
  induction ds with
  | nil => rfl
  | cons b ds ih =>
    by_cases hb : b.identity = id
    · have hc : classify idx b = some (.Removed b) := by
        simp [classify, hb, hgone]
      have hbase : (Finding.Removed b).base = b := rfl
      rw [List.filterMap_cons, hc]
      simp [List.filter_cons, hb, hbase, ih]
    · cases hc : classify idx b with
      | none =>
        rw [List.filterMap_cons, hc]
        simp [List.filter_cons, hb, ih]
      | some f =>
        have hf : f.base = b := classify_base hc
        rw [List.filterMap_cons, hc]
        simp [List.filter_cons, hb, hf, ih]

theorem lookup_foldl_insert (ds : List Declaration) (id : Identity) :
    ∀ idx : Index,
      Index.lookup (ds.foldl Index.insert idx) id =
        match lastDeclared id ds with
        | some c => some c
        | none => Index.lookup idx id := by
  induction ds with
  | nil => intro idx; rfl
  | cons d ds ih =>
    intro idx
    have hcons : lastDeclared id (d :: ds) =
        match lastDeclared id ds with
        | some c => some c
        | none => if d.identity = id then some d else none := rfl
    rw [List.foldl_cons, ih, hcons]
    cases hl : lastDeclared id ds with
    | some c => rfl
    | none =>
      by_cases hd : d.identity = id
      · simp [Index.insert, Index.lookup, hd]
      · simp [Index.insert, Index.lookup, hd]

theorem lookup_buildSummary (current : List ParsedFile) (id : Identity) :
    (buildSummary current).lookup id = lastDeclared id (stateDecls current) := by
  rw [buildSummary_eq, lookup_foldl_insert]
  cases lastDeclared id (stateDecls current) <;> rfl

theorem no_finding_iff (idx : Index) (ds : List Declaration) (u : Declaration)
    (hu : u ∈ ds) :
    (∀ f ∈ ds.filterMap (classify idx), f.base ≠ u) ↔
      ∃ c, idx.lookup u.identity = some c ∧ c.shape = u.shape := by
  constructor
  · intro h
    cases hl : idx.lookup u.identity with
    | none =>
      have hc : classify idx u = some (.Removed u) := by simp [classify, hl]
      exact absurd rfl (h _ (List.mem_filterMap.2 ⟨u, hu, hc⟩))
    | some c =>
      by_cases hs : c.shape = u.shape
      · exact ⟨c, rfl, hs⟩
      · have hc : classify idx u = some (.Changed u c) := by simp [classify, hl, hs]
        exact absurd rfl (h _ (List.mem_filterMap.2 ⟨u, hu, hc⟩))
  · rintro ⟨c, hl, hs⟩ f hf hfu
    obtain ⟨b, _, hb⟩ := List.mem_filterMap.1 hf
    have hbu : b = u := by rw [← classify_base hb, hfu]
    subst hbu
    simp [classify, hl, hs] at hb

/-- C7, the claim at a base state of two files that both declare the exported
function `Foo` (two build-tag variants) and a current state without `Foo`: the
comparer records two `Removed` findings for the symbol `Foo`, not exactly one;
and at a base and a current state that are the same two files, declaring `Foo`
with two signatures: nothing changed, and the comparer records a `Changed`
finding for `Foo`. -/
theorem packageReport_removed_twice :
    declFoo 1 ∈ stateDecls [[⟨declFoo 1, []⟩], [⟨declFoo 2, []⟩]] ∧
    (∀ c ∈ stateDecls [], c.identity ≠ (declFoo 1).identity) ∧
    packageReport [[⟨declFoo 1, []⟩], [⟨declFoo 2, []⟩]] [] =
      [.Removed (declFoo 1), .Removed (declFoo 2)] ∧
    ((packageReport [[⟨declFoo 1, []⟩], [⟨declFoo 2, []⟩]] []).filter
      (fun f => decide (f.base.identity = (declFoo 1).identity))).length = 2 ∧
    packageReport [[⟨declFoo 1, []⟩], [⟨declFooB, []⟩]]
        [[⟨declFoo 1, []⟩], [⟨declFooB, []⟩]] =
      [.Changed (declFoo 1) declFooB] := by
  refine ⟨by decide, by simp [stateDecls], by decide, by decide, by decide⟩

/-- C7 as amended: for every base and current state of one package directory and
every Declaration `d` of the base state (an exported top-level symbol, or an
exported field or method of an exported type) whose identity no Declaration of
the current state has, the report holds a `Removed` finding for `d`; its
findings about that identity are exactly one `Removed` finding for each base
Declaration with that identity, so exactly one when the base state declares the
symbol once. The report holds no finding about a base Declaration `u` if and
only if the last Declaration of the identity of `u` in the current state (the
last write to the Index wins) has the shape of `u`; in particular it holds none
when the current state declares the identity of `u` and only with the shape of
`u`. -/
theorem packageReport_removed (base current : List ParsedFile) (d : Declaration)
    (hd : d ∈ stateDecls base)
    (hgone : ∀ c ∈ stateDecls current, c.identity ≠ d.identity) :
    Finding.Removed d ∈ packageReport base current ∧
    (packageReport base current).filter (fun f => decide (f.base.identity = d.identity)) =
      ((stateDecls base).filter (fun b => decide (b.identity = d.identity))).map
        Finding.Removed ∧
    ((stateDecls base).filter (fun b => decide (b.identity = d.identity)) = [d] →
      (packageReport base current).filter (fun f => decide (f.base.identity = d.identity)) =
        [Finding.Removed d]) ∧
    (∀ u ∈ stateDecls base,
      (∃ c ∈ stateDecls current, c.identity = u.identity) →
      (∀ c ∈ stateDecls current, c.identity = u.identity → c.shape = u.shape) →
      ∀ f ∈ packageReport base current, f.base ≠ u) ∧
    (∀ u ∈ stateDecls base,
      (∀ f ∈ packageReport base current, f.base ≠ u) ↔
        ∃ c, lastDeclared u.identity (stateDecls current) = some c ∧ c.shape = u.shape) := by
  have hnone : (buildSummary current).lookup d.identity = none := by
    rw [buildSummary_eq, lookup_foldl_insert_eq_none]
    exact ⟨rfl, hgone⟩
  have hfilter := filter_filterMap_classify hnone (stateDecls base)
  rw [← packageReport_eq] at hfilter
  refine ⟨?_, hfilter, fun hone => ?_, ?_, ?_⟩
  rotate_left 3
  · intro u hu
    rw [packageReport_eq, no_finding_iff _ _ u hu, lookup_buildSummary]
  · rw [packageReport_eq, List.mem_filterMap]
    exact ⟨d, hd, by simp [classify, hnone]⟩
  · rw [hfilter, hone]
    rfl
  · intro u _ hex hshape f hf hfu
    rw [packageReport_eq, List.mem_filterMap] at hf
    obtain ⟨b, _, hb⟩ := hf
    have hbu : b = u := by rw [← classify_base hb, hfu]
    subst hbu
    cases hl : (buildSummary current).lookup b.identity with
    | none =>
      rw [buildSummary_eq, lookup_foldl_insert_eq_none] at hl
      obtain ⟨c, hc, hci⟩ := hex
      exact hl.2 c hc hci
    | some cur =>
      have hcur := hl
      rw [buildSummary_eq] at hcur
      rcases lookup_foldl_insert_some _ _ _ _ hcur with h0 | ⟨hmem, hid⟩
      · cases h0
      · have hs := hshape cur hmem hid
        simp [classify, hl, hs] at hb

/-- The theorem `packageReport_removed` at the base state `func Foo`,
`type T struct { X int }` and the current state `func Foo`, `type T struct {}`:
the report is the one finding that the field `T.X` was removed; likewise the
removal of the exported function `Éclair` is one finding. -/
theorem packageReport_removed_witness :
    declX ∈ stateDecls [[⟨declFoo 1, []⟩, ⟨declT, [declX]⟩]] ∧
    (∀ c ∈ stateDecls [[⟨declFoo 9, []⟩, ⟨declT, []⟩]], c.identity ≠ declX.identity) ∧
    packageReport [[⟨declFoo 1, []⟩, ⟨declT, [declX]⟩]] [[⟨declFoo 9, []⟩, ⟨declT, []⟩]] =
      [.Removed declX] ∧
    Finding.Removed declX ∈
      packageReport [[⟨declFoo 1, []⟩, ⟨declT, [declX]⟩]] [[⟨declFoo 9, []⟩, ⟨declT, []⟩]] ∧
    isExported declEclair.name = true ∧
    packageReport [[⟨declEclair, []⟩]] [] = [.Removed declEclair] :=
  ⟨by decide, by decide, by decide,
    (packageReport_removed [[⟨declFoo 1, []⟩, ⟨declT, [declX]⟩]]
      [[⟨declFoo 9, []⟩, ⟨declT, []⟩]] declX (by decide) (by decide)).1,
    by decide, by decide⟩

/-! ## The report that `main` tests -/

theorem headLoop_eq_foldl {Ast Summary Comparer : Type} (w : World Ast Summary Comparer)
    (dir : Str) (list : List dirEntry) :
    ∀ (summary result : Summary), headLoop w dir list summary = some result →
      result = (headParsed w dir list).foldl (summaryStep w) summary := by
  induction list with
  | nil =>
    intro summary result h
    simp only [headLoop, Option.some.injEq] at h
    simp [headParsed, h]
  | cons d list ih =>
    intro summary result h
    unfold headLoop at h
    unfold headParsed
    rw [List.filterMap_cons]
    by_cases hskip : d.IsDir = true ∨ ¬ stringsHasSuffix d.Name ".go".toList = true ∨
        stringsHasSuffix d.Name "_test.go".toList = true
    · rw [if_pos hskip] at h
      rw [if_pos hskip]
      exact ih _ _ h
    · rw [if_neg hskip] at h
      rw [if_neg hskip]
      cases hp : w.parseHead (filepathJoin dir d.Name) with
      | none => simp [hp] at h
      | some src =>
        simp only [hp] at h
        rw [List.foldl_cons]
        unfold summaryStep
        cases he : w.FileExports src with
        | none =>
          simp only [he] at h
          exact ih _ _ h
        | some src2 =>
          simp only [he] at h
          exact ih _ _ h

theorem baseLoop_eq_foldl {Ast Summary Comparer : Type} (w : World Ast Summary Comparer)
    (dir : Str) (blobs : List Str) :
    ∀ (comparer result : Comparer), baseLoop w dir blobs comparer = some result →
      result = (baseParsed w dir blobs).foldl (comparerStep w) comparer := by
  induction blobs with
  | nil =>
    intro comparer result h
    simp only [baseLoop, Option.some.injEq] at h
    simp [baseParsed, h]
  | cons file blobs ih =>
    intro comparer result h
    unfold baseLoop at h
    unfold baseParsed
    rw [List.filterMap_cons]
    cases hb : w.gitBlob (filepathJoin dir file) with
    | none => simp [hb] at h
    | some r =>
      simp only [hb] at h
      cases hp : w.parseBase (filepathJoin dir file) r with
      | none => simp [hp] at h
      | some src =>
        simp only [hp] at h
        simp only [Option.some_bind, hp]
        rw [List.foldl_cons]
        unfold comparerStep
        cases he : w.FileExports src with
        | none =>
          simp only [he] at h
          exact ih _ _ h
        | some src2 =>
          simp only [he] at h
          exact ih _ _ h

theorem specWorld_summary (e : Collaborators) (files : List ParsedFile) :
    files.foldl (summaryStep (specWorld e)) [] = buildSummary files := by
  unfold buildSummary
  congr 1
  funext s src
  by_cases h : hasExports src = true <;> simp [summaryStep, specWorld, h]

theorem specWorld_comparer (e : Collaborators) (summary : Index) (files : List ParsedFile) :
    files.foldl (comparerStep (specWorld e)) (newDeclComparer summary) =
      compareBase summary files := by
  unfold compareBase
  congr 1
  funext c src
  by_cases h : hasExports src = true <;> simp [comparerStep, specWorld, h]

/-- The report that `main` tests for a directory is the `packageReport` of the
base files and the current files it parsed. -/
theorem checkDir_specWorld_report (f : flags) (e : Collaborators) (dir : Str)
    (comparer : DeclComparer)
    (h : (checkDir f (specWorld e) dir).1 = .compared comparer) :
    ∃ list blobs, e.osOpen dir = some (some list) ∧
      gitLsTreeGoBlobs (e.lsTree dir) = .ok blobs ∧
      comparer.report =
        packageReport (baseParsed (specWorld e) dir blobs)
          (headParsed (specWorld e) dir list) := by
  unfold checkDir at h
  have hopenEq : (specWorld e).osOpen dir = e.osOpen dir := rfl
  have hlsEq : (specWorld e).lsTree dir = e.lsTree dir := rfl
  rw [hopenEq, hlsEq] at h
  cases ho : e.osOpen dir with
  | none => simp [ho] at h
  | some l =>
    cases l with
    | none => simp [ho] at h
    | some list =>
      simp only [ho] at h
      cases hh : headLoop (specWorld e) dir list ((specWorld e).newPackageSummary dir) with
      | none => simp [hh] at h
      | some summary =>
        simp only [hh] at h
        cases hl : gitLsTreeGoBlobs (e.lsTree dir) with
        | error err => simp [hl] at h
        | ok blobs =>
          simp only [hl] at h
          cases hbl : baseLoop (specWorld e) dir blobs ((specWorld e).newDeclComparer summary) with
          | none => simp [hbl] at h
          | some c =>
            simp only [hbl, dirResult.compared.injEq] at h
            subst h
            refine ⟨list, blobs, rfl, rfl, ?_⟩
            have hs := headLoop_eq_foldl _ _ _ _ _ hh
            have hc := baseLoop_eq_foldl _ _ _ _ _ hbl
            have hs2 : summary = buildSummary (headParsed (specWorld e) dir list) := by
              rw [hs]
              have hnew : (specWorld e).newPackageSummary dir = [] := rfl
              rw [hnew]
              exact specWorld_summary e (headParsed (specWorld e) dir list)
            have hc2 : c = compareBase summary (baseParsed (specWorld e) dir blobs) := by
              rw [hc]
              have hnew : (specWorld e).newDeclComparer summary = newDeclComparer summary := rfl
              rw [hnew]
              exact specWorld_comparer e summary (baseParsed (specWorld e) dir blobs)
            rw [hc2, hs2]
            rfl

end Breakcheck
